import Mathlib

set_option maxHeartbeats 1000000

/-
Verification development for the mergeImportData merge/diff engine
(src/modules/onify/v1/mergeDataFunctions.js).

The embedding models JSON-like values as an inductive type; JS objects are
ordered association lists (JS string-keyed insertion order).  The deep-diff
library's `diff` entry point is embedded from its algorithm (kinds E/N/D/A,
path threading, element-wise array walk, key-wise object walk).  Runtime
TypeErrors that the engine can hit on malformed input (a non-array value
reached by forEach/findIndex, a non-string id reached by String.split) are
modelled as an explicit thrown outcome.  The textual report renderer is
embedded in full.  Of the HTML report renderer, the string building is
presentational and elided; its entity lookups and its change-application
pass — the places where it can raise and thereby gate the whole return —
are embedded as a success predicate (generateHTMLReportOk below).
Reference-identity corner cases of JS (===", Object.keys on strings,
property access on null) are modelled as noted at each definition.
-/

namespace MergeSpec

/-- JSON-like values: the entities mergeImportData operates on.  Objects are
ordered association lists, mirroring JS object insertion order. -/
inductive Json where
  | null
  | bool (b : Bool)
  | num (n : Int)
  | str (s : String)
  | arr (elems : List Json)
  | obj (fields : List (String × Json))
deriving Repr

mutual

/-- Structural equality of values (used to realise strict equality on
primitives and JSON.stringify-equality, both of which coincide with it on
the respective fragments). -/
def Json.beq : Json → Json → Bool
  | .null, .null => true
  | .bool a, .bool b => a == b
  | .num a, .num b => a == b
  | .str a, .str b => a == b
  | .arr a, .arr b => Json.beqList a b
  | .obj a, .obj b => Json.beqFields a b
  | _, _ => false
termination_by structural a => a

def Json.beqList : List Json → List Json → Bool
  | [], [] => true
  | x :: xs, y :: ys => Json.beq x y && Json.beqList xs ys
  | _, _ => false
termination_by structural a => a

def Json.beqFields : List (String × Json) → List (String × Json) → Bool
  | [], [] => true
  | (k, v) :: xs, (l, w) :: ys => k == l && Json.beq v w && Json.beqFields xs ys
  | _, _ => false
termination_by structural a => a

end

instance : BEq Json := ⟨Json.beq⟩

/-- JS truthiness of a value (NaN and -0 do not occur in the model). -/
def truthy : Json → Bool
  | .null => false
  | .bool b => b
  | .num n => n != 0
  | .str s => s != ""
  | .arr _ => true
  | .obj _ => true

/-- JS truthiness where `none` stands for undefined. -/
def truthyOpt : Option Json → Bool
  | none => false
  | some v => truthy v

/-- Property read `item[k]`.  Non-objects have no named fields in the model
(character indexing on strings and the TypeError on null-property access are
outside the scope of the claims). -/
def Json.getField : Json → String → Option Json
  | .obj fs, k => fs.lookup k
  | _, _ => none

/-- The own enumerable fields of a value, as Object.keys-based code sees them. -/
def Json.fieldsOf : Json → List (String × Json)
  | .obj fs => fs
  | _ => []

def Json.isObj : Json → Bool
  | .obj _ => true
  | _ => false

/-- Values on which JS strict equality is value equality. -/
def isPrim : Json → Bool
  | .arr _ => false
  | .obj _ => false
  | _ => true

/-- JS strict equality between values originating from distinct object graphs:
primitives compare by value, objects and arrays from distinct graphs are never
reference-equal. -/
def strictEq (a b : Json) : Bool :=
  isPrim a && isPrim b && a == b

/-- Strict equality where either side may be undefined; undefined === undefined
holds in JS. -/
def strictEqOpt : Option Json → Option Json → Bool
  | none, none => true
  | some a, some b => strictEq a b
  | _, _ => false

/-- getUniqueId: the JS expression item.slug short-circuits by truthiness to
item.key and then to item.id. -/
def getUniqueId (item : Json) : Option Json :=
  if truthyOpt (item.getField "slug") then item.getField "slug"
  else if truthyOpt (item.getField "key") then item.getField "key"
  else item.getField "id"

/-- Lower-case hexadecimal digit. -/
def hexDigit (n : Nat) : Char :=
  if n < 10 then Char.ofNat (48 + n) else Char.ofNat (87 + n)

/-- JSON.stringify escaping of one character of a string literal. -/
def escapeJsonChar (c : Char) : String :=
  if c = '"' then "\\\""
  else if c = '\\' then "\\\\"
  else if c = '\n' then "\\n"
  else if c = '\r' then "\\r"
  else if c = '\t' then "\\t"
  else if c.toNat = 8 then "\\b"
  else if c.toNat = 12 then "\\f"
  else if c.toNat < 32 then
    "\\u00" ++ String.singleton (hexDigit (c.toNat / 16)) ++
      String.singleton (hexDigit (c.toNat % 16))
  else String.singleton c

/-- JSON.stringify rendering of a string literal. -/
def escapeJsonString (s : String) : String :=
  "\"" ++ String.join (s.toList.map escapeJsonChar) ++ "\""

mutual

/-- JSON.stringify of a value (no indentation argument). -/
def jsonStringify : Json → String
  | .null => "null"
  | .bool true => "true"
  | .bool false => "false"
  | .num n => toString n
  | .str s => escapeJsonString s
  | .arr xs => "[" ++ jsonStringifyList xs ++ "]"
  | .obj fs => "\x7b" ++ jsonStringifyFields fs ++ "\x7d"
termination_by structural j => j

def jsonStringifyList : List Json → String
  | [] => ""
  | [x] => jsonStringify x
  | x :: xs => jsonStringify x ++ "," ++ jsonStringifyList xs
termination_by structural l => l

def jsonStringifyFields : List (String × Json) → String
  | [] => ""
  | [(k, v)] => escapeJsonString k ++ ":" ++ jsonStringify v
  | (k, v) :: fs => escapeJsonString k ++ ":" ++ jsonStringify v ++ "," ++ jsonStringifyFields fs
termination_by structural l => l

end

mutual

/-- JS string coercion of a value, as in template literals and property keys. -/
def jsToString : Json → String
  | .null => "null"
  | .bool true => "true"
  | .bool false => "false"
  | .num n => toString n
  | .str s => s
  | .arr xs => jsToStringList xs
  | .obj _ => "[object Object]"
termination_by structural j => j

def jsToStringList : List Json → String
  | [] => ""
  | [x] => (match x with | .null => "" | v => jsToString v)
  | x :: xs => (match x with | .null => "" | v => jsToString v) ++ "," ++ jsToStringList xs
termination_by structural l => l

end

/-- JS string coercion of a possibly-undefined id value, as used when an id is
interpolated or used as an object property key. -/
def jsKeyOfId : Option Json → String
  | none => "undefined"
  | some v => jsToString v

/-- A component of a diff path: deep-diff pushes object keys as strings and
array indices as numbers. -/
inductive PKey where
  | str (s : String)
  | idx (n : Nat)
deriving Repr, DecidableEq

/-- The nested item of a kind-A (array) diff entry: element added or removed. -/
inductive DiffItem where
  | N (rhs : Json)
  | D (lhs : Json)
deriving Repr

/-- One deep-diff change record: Edited, New-field, Deleted-field, or Array. -/
inductive DiffEntry where
  | E (path : List PKey) (lhs rhs : Json)
  | N (path : List PKey) (rhs : Json)
  | D (path : List PKey) (lhs : Json)
  | A (path : List PKey) (index : Nat) (item : DiffItem)
deriving Repr

def DiffEntry.path : DiffEntry → List PKey
  | .E p _ _ => p
  | .N p _ => p
  | .D p _ => p
  | .A p _ _ => p

def DiffEntry.isA : DiffEntry → Bool
  | .A _ _ _ => true
  | _ => false

def DiffEntry.isE : DiffEntry → Bool
  | .E _ _ _ => true
  | _ => false

/-- How path components print under Array.prototype.join. -/
def pkeyToString : PKey → String
  | .str s => s
  | .idx n => toString n

/-- diff.path.join with dots, as the engine and the report renderers do. -/
def joinPath (p : List PKey) : String :=
  String.intercalate "." (p.map pkeyToString)

/-- deep-diff's realTypeOf classification, restricted to JSON values. -/
def realType : Json → Nat
  | .null => 0
  | .bool _ => 1
  | .num _ => 2
  | .str _ => 3
  | .arr _ => 4
  | .obj _ => 5

/-- The trailing while-loop of deep-diff's array walk: every remaining
right-hand element from index i on is reported as an array addition. -/
def dArrN (path : List PKey) (i : Nat) : List Json → List DiffEntry
  | [] => []
  | r :: rs => .A path i (.N r) :: dArrN path (i + 1) rs

mutual

/-- deep-diff's recursive deepDiff on two defined values: kind E when the
realTypeOf classifications differ, element-wise walk for two arrays, key-wise
walk for two objects, kind E for unequal primitives of one type. -/
def deepDiff (path : List PKey) (l r : Json) : List DiffEntry :=
  if realType l != realType r then [.E path l r]
  else match l, r with
    | .arr ls, .arr rs => dArr path 0 ls rs
    | .obj lf, .obj rf =>
        dObjL path lf rf ++
        (rf.filter (fun kv => (lf.lookup kv.1).isNone)).map
          (fun kv => .N (path ++ [.str kv.1]) kv.2)
    | l, r => if Json.beq l r then [] else [.E path l r]
termination_by structural l

/-- deep-diff's for-loop over the left array: recurse on common indices,
report a kind-A deletion when the right side is exhausted, then hand the
remaining right-side elements to the addition loop. -/
def dArr (path : List PKey) (i : Nat) (ls rs : List Json) : List DiffEntry :=
  match ls, rs with
  | [], rs => dArrN path i rs
  | l :: ls, [] => .A path i (.D l) :: dArr path (i + 1) ls []
  | l :: ls, r :: rs => deepDiff (path ++ [.idx i]) l r ++ dArr path (i + 1) ls rs
termination_by structural ls

/-- deep-diff's pass over the left object's keys: recurse when the key also
exists on the right, otherwise report a deletion.  (The pass over remaining
right-side keys, reporting additions, is appended by deepDiff.) -/
def dObjL (path : List PKey) (lf rf : List (String × Json)) : List DiffEntry :=
  match lf with
  | [] => []
  | (k, v) :: lf =>
      (match rf.lookup k with
       | some rv => deepDiff (path ++ [.str k]) v rv
       | none => [.D (path ++ [.str k]) v]) ++ dObjL path lf rf
termination_by structural lf

end

/-- The deep-diff `diff` entry point; the engine immediately replaces the
undefined result of an empty diff by an empty list (diff(a, b) with a
trailing or-empty-list), so the model returns the list directly. -/
def diff (lhs rhs : Json) : List DiffEntry :=
  deepDiff [] lhs rhs

/-- filterObject: keep the fields whose key is not excluded, in order. -/
def filterObject (fields : List (String × Json)) (excludeKeys : List String) :
    List (String × Json) :=
  fields.filter (fun kv => !excludeKeys.contains kv.1)

/-- JS property assignment obj[k] = v on an association list: overwrite in
place when the key exists, append otherwise. -/
def setAssoc {β : Type} (l : List (String × β)) (k : String) (v : β) :
    List (String × β) :=
  if l.any (fun kv => kv.1 == k) then
    l.map (fun kv => if kv.1 = k then (k, v) else kv)
  else l ++ [(k, v)]

/-- The spread union of two objects, as in braces ...a, ...b: a's keys in
order with b's value on collision, then b's remaining keys in order. -/
def spreadMerge (a b : List (String × Json)) : List (String × Json) :=
  a.map (fun kv =>
    match b.lookup kv.1 with
    | some v => (kv.1, v)
    | none => kv) ++
  b.filter (fun kv => (a.lookup kv.1).isNone)

/-- One element of the mergeArrays loop: push the source element, and record
it in added, unless some element of the evolving target array has the same
JSON.stringify form. -/
def mergeArraysStep (acc : List Json × List Json) (sourceItem : Json) :
    List Json × List Json :=
  if acc.1.any (fun targetItem => jsonStringify targetItem == jsonStringify sourceItem)
  then acc
  else (acc.1 ++ [sourceItem], acc.2 ++ [sourceItem])

/-- mergeArrays: push each source element whose JSON.stringify form matches no
element of the evolving target array, recording it in added. -/
def mergeArrays (targetArray sourceArray : List Json) : List Json × List Json :=
  sourceArray.foldl mergeArraysStep (targetArray, [])

/-- Array.prototype.indexOf with strict equality; on the data reachable here
the sought element is always present and reference-unique, so value equality
yields the same index. -/
def jsIndexOf (l : List Json) (x : Json) : Nat :=
  l.findIdx (fun y => y == x)

/-- One key of the appendArrayValues block: when both the evolving filtered
target entity's value and the filtered source entity's value at the key are
arrays, union-merge them in place and push one kind-A addition entry per
appended element at the appended element's index in the merged array. -/
def appendStep (acc : List (String × Json) × List DiffEntry) (kv : String × Json) :
    List (String × Json) × List DiffEntry :=
  match acc.1.lookup kv.1, kv.2 with
  | some (.arr targetArr), .arr sourceArr =>
      (setAssoc acc.1 kv.1 (.arr (mergeArrays targetArr sourceArr).1),
       acc.2 ++ (mergeArrays targetArr sourceArr).2.map (fun addedItem =>
         .A [.str kv.1] (jsIndexOf (mergeArrays targetArr sourceArr).1 addedItem)
           (.N addedItem)))
  | _, _ => acc

/-- The appendArrayValues block (identical in both branches of the engine):
fold the per-key union step over the keys of the filtered source entity. -/
def appendArrays (targetItemFiltered sourceItemFiltered : List (String × Json))
    (itemDiffs : List DiffEntry) : List (String × Json) × List DiffEntry :=
  sourceItemFiltered.foldl appendStep (targetItemFiltered, itemDiffs)

/-- The diff-list post-processing: collect the joined paths of kind-A entries,
then drop each kind-E entry whose joined parent path is among them. -/
def filterItemDiffs (itemDiffs : List DiffEntry) : List DiffEntry :=
  let arrayAdditions := (itemDiffs.filter (fun d => d.isA)).map (fun d => joinPath d.path)
  itemDiffs.filter (fun d =>
    match d with
    | .E p _ _ => !arrayAdditions.contains (joinPath p.dropLast)
    | _ => true)

/-- The per-collection-key loop state: the evolving target sequence plus this
key's contributions to updates, report.New, report.Updated and detailedDiffs. -/
structure NodeState where
  titems : List Json
  nupdates : List Json
  nnew : List (Option Json)
  nupd : List (Option Json)
  ndiffs : List (String × List DiffEntry)
deriving Repr

/-- The initial diff list for a matched pair: the deep diff of the two
attribute-filtered entities under overwrite, the empty list otherwise. -/
def mergeBase (overwrite : Bool) (excludeAttributes : List String)
    (targetItem sourceItem : Json) : List DiffEntry :=
  if overwrite then
    diff (Json.obj (filterObject targetItem.fieldsOf excludeAttributes))
      (Json.obj (filterObject sourceItem.fieldsOf excludeAttributes))
  else []

/-- The final entity stored at the matched index together with its diff list:
under appendArrayValues the array-unioned filtered target entity (the
engine's final assignment overwrites the earlier spread assignment in the
overwrite branch); otherwise the spread union under overwrite; none when the
target entity is left untouched. -/
def mergeEntity (overwrite appendArrayValues : Bool) (excludeAttributes : List String)
    (targetItem sourceItem : Json) : Option (Json × List DiffEntry) :=
  if appendArrayValues then
    some (Json.obj (appendArrays (filterObject targetItem.fieldsOf excludeAttributes)
            (filterObject sourceItem.fieldsOf excludeAttributes)
            (mergeBase overwrite excludeAttributes targetItem sourceItem)).1,
          (appendArrays (filterObject targetItem.fieldsOf excludeAttributes)
            (filterObject sourceItem.fieldsOf excludeAttributes)
            (mergeBase overwrite excludeAttributes targetItem sourceItem)).2)
  else if overwrite then
    some (Json.obj (spreadMerge (filterObject targetItem.fieldsOf excludeAttributes)
            (filterObject sourceItem.fieldsOf excludeAttributes)),
          mergeBase overwrite excludeAttributes targetItem sourceItem)
  else none

/-- Store the merged entity at the matched index and, when the diff list is
non-empty, record the post-processed diffs, the id under Updated and the
stored entity under updates. -/
def recordMatched (st : NodeState) (targetItemIndex : Nat) (itemId : Option Json) :
    Option (Json × List DiffEntry) → NodeState
  | none => st
  | some (entity, itemDiffs) =>
      if itemDiffs.isEmpty then { st with titems := st.titems.set targetItemIndex entity }
      else
        { titems := st.titems.set targetItemIndex entity
          nupdates := st.nupdates ++ [entity]
          nnew := st.nnew
          nupd := st.nupd ++ [itemId]
          ndiffs := setAssoc st.ndiffs (jsKeyOfId itemId) (filterItemDiffs itemDiffs) }

/-- Processing of one source entity against the evolving target sequence:
the body of the forEach over source[node]. -/
def processItem (overwrite appendArrayValues : Bool) (excludeAttributes : List String)
    (st : NodeState) (sourceItem : Json) : NodeState :=
  match st.titems.findIdx? (fun item => strictEqOpt (getUniqueId item) (getUniqueId sourceItem)) with
  | some targetItemIndex =>
      recordMatched st targetItemIndex (getUniqueId sourceItem)
        (mergeEntity overwrite appendArrayValues excludeAttributes
          (st.titems.getD targetItemIndex Json.null) sourceItem)
  | none =>
      { titems := st.titems ++ [sourceItem]
        nupdates := st.nupdates ++ [sourceItem]
        nnew := st.nnew ++ [getUniqueId sourceItem]
        nupd := st.nupd
        ndiffs := st.ndiffs }

/-- The whole merge state threaded through the loop over source keys. -/
structure MergeAcc where
  target : List (String × Json)
  updates : List (String × List Json)
  rNew : List (String × List (Option Json))
  rUpd : List (String × List (Option Json))
  dd : List (String × List (String × List DiffEntry))
deriving Repr

/-- target[node] after the default-assignment step: left alone when truthy,
set to an empty array when falsy or missing. -/
def defaultTarget (target : List (String × Json)) (node : String) : List (String × Json) :=
  if truthyOpt (target.lookup node) then target else setAssoc target node (Json.arr [])

/-- Pack one key's contributions into the merge state: the mutated target
sequence is stored back, and the updates entry is dropped when empty (the
engine's filter-then-delete step), as are the absent report keys. -/
def packNode (acc : MergeAcc) (target1 : List (String × Json)) (node : String)
    (st : NodeState) : MergeAcc :=
  { target := setAssoc target1 node (.arr st.titems)
    updates := if st.nupdates.isEmpty then acc.updates else acc.updates ++ [(node, st.nupdates)]
    rNew := if st.nnew.isEmpty then acc.rNew else acc.rNew ++ [(node, st.nnew)]
    rUpd := if st.nupd.isEmpty then acc.rUpd else acc.rUpd ++ [(node, st.nupd)]
    dd := acc.dd ++ [(node, st.ndiffs)] }

/-- One iteration of the loop over source keys: default a falsy target[node]
to an empty array, then run the entity loop.  A non-array source value, or a
truthy non-array target value met by findIndex, raises a TypeError. -/
def processNode (overwrite appendArrayValues : Bool) (excludeAttributes : List String)
    (acc : MergeAcc) (node : String) (sval : Json) : Except Unit MergeAcc :=
  match sval with
  | .arr items =>
      match ((defaultTarget acc.target node).lookup node).getD (Json.arr []) with
      | .arr titems =>
          .ok (packNode acc (defaultTarget acc.target node) node
            (items.foldl (processItem overwrite appendArrayValues excludeAttributes)
              { titems := titems, nupdates := [], nnew := [], nupd := [], ndiffs := [] }))
      | _ =>
          if items.isEmpty then
            .ok { acc with target := defaultTarget acc.target node, dd := acc.dd ++ [(node, [])] }
          else .error ()
  | _ => .error ()

/-- The loop over the keys of source, stopping at the first raised TypeError. -/
def runNodes (overwrite appendArrayValues : Bool) (excludeAttributes : List String)
    (acc : MergeAcc) : List (String × Json) → Except Unit MergeAcc
  | [] => .ok acc
  | (node, sval) :: rest =>
      match processNode overwrite appendArrayValues excludeAttributes acc node sval with
      | .error e => .error e
      | .ok acc1 => runNodes overwrite appendArrayValues excludeAttributes acc1 rest

/-- The engine's inner format guard: some key of the collection holds an
array value. -/
def isImportFormat (data : List (String × Json)) : Bool :=
  (data.map Prod.fst).any (fun key =>
    match data.lookup key with
    | some (.arr _) => true
    | _ => false)

/-- characters of s before the first colon: String.prototype.split(s, colon)
at index zero. -/
def beforeColon (s : String) : String :=
  String.mk (s.toList.takeWhile (fun c => c != ':'))

/-- detailedDiffs[node] and then [itemId], with undefined propagated. -/
def ddLookup (dd : List (String × List (String × List DiffEntry)))
    (node itemId : String) : Option (List DiffEntry) :=
  match dd.lookup node with
  | some m => m.lookup itemId
  | none => none

/-- The kind-specific line the textual report emits for one diff entry. -/
def diffLine (d : DiffEntry) : String :=
  match d with
  | .E p lhs rhs =>
      "      * Changed " ++ joinPath p ++ " from " ++ jsonStringify lhs ++
        " to " ++ jsonStringify rhs ++ "\n"
  | .N p rhs =>
      "      * Added new property " ++ joinPath p ++ " with value " ++
        jsonStringify rhs ++ "\n"
  | .D p lhs =>
      "      * Deleted property " ++ joinPath p ++ " which had value " ++
        jsonStringify lhs ++ "\n"
  | .A p i item =>
      let verb := match item with | .N _ => "Added" | .D _ => "Deleted"
      let value := match item with
        | .N rhs => if truthy rhs then jsonStringify rhs else "undefined"
        | .D lhs => jsonStringify lhs
      "      * Array " ++ joinPath p ++ " modified at index " ++ toString i ++
        ": " ++ verb ++ " value " ++ value ++ "\n"

/-- One listed id in the textual report: the split-at-colon lookup key, the
bare id line, then one line per diff entry found under the key.  A non-string
id raises a TypeError at the split, modelled as none. -/
def renderItem (dd : List (String × List (String × List DiffEntry)))
    (node : String) (idv : Option Json) : Option String :=
  match idv with
  | some (.str s) =>
      match ddLookup dd node (beforeColon s) with
      | some ds => some ("    - " ++ s ++ "\n" ++ String.join (ds.map diffLine))
      | none => some ("    - " ++ s ++ "\n")
  | _ => none

def renderItems (dd : List (String × List (String × List DiffEntry)))
    (node : String) : List (Option Json) → Option String
  | [] => some ""
  | idv :: rest =>
      match renderItem dd node idv with
      | none => none
      | some s =>
          match renderItems dd node rest with
          | none => none
          | some t => some (s ++ t)

def renderNodes (dd : List (String × List (String × List DiffEntry))) :
    List (String × List (Option Json)) → Option String
  | [] => some ""
  | (node, items) :: rest =>
      match renderItems dd node items with
      | none => none
      | some s =>
          match renderNodes dd rest with
          | none => none
          | some t => some ("  " ++ node ++ ":\n" ++ s ++ t)

/-- One report section (New or Updated): header plus nodes, emitted only when
the section has at least one key. -/
def renderSection (label : String) (entries : List (String × List (Option Json)))
    (dd : List (String × List (String × List DiffEntry))) : Option String :=
  if entries.isEmpty then some ""
  else
    match renderNodes dd entries with
    | none => none
    | some s => some (label ++ ":\n" ++ s)

/-- JS String.prototype.trim: drop whitespace from both ends. -/
def jsTrim (s : String) : String :=
  String.mk (((s.toList.dropWhile Char.isWhitespace).reverse.dropWhile
    Char.isWhitespace).reverse)

/-- generateTextualReport: the New section then the Updated section, trimmed. -/
def generateTextualReport (rNew rUpd : List (String × List (Option Json)))
    (dd : List (String × List (String × List DiffEntry))) : Option String :=
  match renderSection "New" rNew dd, renderSection "Updated" rUpd dd with
  | some a, some b => some (jsTrim (a ++ b))
  | _, _ => none

/-- The value of an entity at a diff path, walking only positions that exist:
none when a step is missing or meets a non-container. -/
def getAtOpt : Json → List PKey → Option Json
  | v, [] => some v
  | .obj fs, .str k :: rest =>
      match fs.lookup k with
      | some v => getAtOpt v rest
      | none => none
  | .arr els, .idx i :: rest =>
      match els.get? i with
      | some v => getAtOpt v rest
      | none => none
  | _, _ => none
termination_by structural _v p => p

/-- deep-diff applyChange's prefix walk succeeds on this entity: every step of
the path meets an object (string key) or an array (index key), or a missing
position, which applyChange fills with a fresh container.  A primitive met
mid-path leaves the walk on undefined and the final operation raises. -/
def prefixCreatable : Json → List PKey → Bool
  | _, [] => true
  | .obj fs, .str k :: rest =>
      match fs.lookup k with
      | some v => prefixCreatable v rest
      | none => true
  | .arr els, .idx i :: rest =>
      match els.get? i with
      | some v => prefixCreatable v rest
      | none => true
  | _, _ => false
termination_by structural _v p => p

/-- One deep-diff change record applies cleanly to this entity: the path's
prefix walk stays on containers or creatable positions, and for a kind-A
change the addressed value is an array or missing (applyChange then creates
one; element set and splice both complete on it).  Under this check the
HTML renderer's applyChange pass over the record completes without raising.
The deep-diff library's own source is not vendored in this repository, so
the check states the success condition of its published applyChange. -/
def changeOk (before : Json) : DiffEntry → Bool
  | .E p _ _ => !p.isEmpty && prefixCreatable before p.dropLast
  | .N p _ => !p.isEmpty && prefixCreatable before p.dropLast
  | .D p _ => !p.isEmpty && prefixCreatable before p.dropLast
  | .A p _ _ =>
      !p.isEmpty && prefixCreatable before p.dropLast &&
        (match getAtOpt before p with
         | some (.arr _) => true
         | none => true
         | some _ => false)

/-- One listed id of the HTML report renders without raising.  A string id is
looked up, truncated at its first colon, in detailedDiffs.  With a recorded
diff list, the pristine target copy must hold the node as an array containing
an entity with that derived id — otherwise .find raises a TypeError on
undefined or JSON.parse(undefined) raises a SyntaxError — and each recorded
entry must apply cleanly to that entity.  Without one, the source copy must
hold such an entity, otherwise JSON.stringify(undefined).replace raises.  A
non-string id has already raised at the textual stage. -/
def htmlItemOk (dd : List (String × List (String × List DiffEntry)))
    (tgt src : List (String × Json)) (node : String) (idv : Option Json) : Bool :=
  match idv with
  | some (.str s) =>
      match ddLookup dd node (beforeColon s) with
      | some ds =>
          match tgt.lookup node with
          | some (.arr els) =>
              match els.find? (fun el =>
                  strictEqOpt (getUniqueId el) (some (Json.str (beforeColon s)))) with
              | some before => ds.all (changeOk before)
              | none => false
          | _ => false
      | none =>
          match src.lookup node with
          | some (.arr els) =>
              els.any (fun el =>
                strictEqOpt (getUniqueId el) (some (Json.str (beforeColon s))))
          | _ => false
  | _ => false

/-- generateHTMLReport's walk over both report sections, reduced to whether it
completes without raising; the HTML string built on success is presentational
and not modelled. -/
def generateHTMLReportOk (rNew rUpd : List (String × List (Option Json)))
    (dd : List (String × List (String × List DiffEntry)))
    (tgt src : List (String × Json)) : Bool :=
  rNew.all (fun kv => kv.2.all (htmlItemOk dd tgt src kv.1)) &&
    rUpd.all (fun kv => kv.2.all (htmlItemOk dd tgt src kv.1))

/-- The observable outcome of one mergeImportData call: the silent undefined
of the format guard, a raised error, or the merge result (the mutated
target with the updates/report/detailedDiffs accumulators, plus the rendered
textual report). -/
inductive MergeOutcome where
  | undef
  | thrown
  | ok (acc : MergeAcc) (report : String)
deriving Repr

/-- mergeImportData: guard both collections, run the reconciliation loop over
the source keys, then render the textual report and the HTML report — the
return-object literal evaluates the textual report first, so its TypeError
preempts the HTML renderer's.  The HTML string itself is presentational and
not modelled; only whether its rendering raises is (generateHTMLReportOk,
against the pristine copies of target and source taken before the loop). -/
def mergeImportData (source target : List (String × Json))
    (overwrite appendArrayValues : Bool) (excludeAttributes : List String) :
    MergeOutcome :=
  if !isImportFormat source && !isImportFormat target then .undef
  else
    match runNodes overwrite appendArrayValues excludeAttributes
        { target := target, updates := [], rNew := [], rUpd := [], dd := [] } source with
    | .error _ => .thrown
    | .ok acc =>
        match generateTextualReport acc.rNew acc.rUpd acc.dd with
        | none => .thrown
        | some rep =>
            if generateHTMLReportOk acc.rNew acc.rUpd acc.dd target source then
              .ok acc rep
            else .thrown

/-- Modelled from the spec, claim C9's kind-specific phrasings: identical to
the code's diffLine except on the Array line, where the claim's
"Added/Deleted value v" serialises the element itself — the code instead
serialises diff.item.rhs with a truthiness fallback to diff.item.lhs, which
prints undefined for a falsy added element. -/
def specDiffLine (d : DiffEntry) : String :=
  match d with
  | .E p lhs rhs =>
      "      * Changed " ++ joinPath p ++ " from " ++ jsonStringify lhs ++
        " to " ++ jsonStringify rhs ++ "\n"
  | .N p rhs =>
      "      * Added new property " ++ joinPath p ++ " with value " ++
        jsonStringify rhs ++ "\n"
  | .D p lhs =>
      "      * Deleted property " ++ joinPath p ++ " which had value " ++
        jsonStringify lhs ++ "\n"
  | .A p i item =>
      let verb := match item with | .N _ => "Added" | .D _ => "Deleted"
      let value := match item with
        | .N rhs => jsonStringify rhs
        | .D lhs => jsonStringify lhs
      "      * Array " ++ joinPath p ++ " modified at index " ++ toString i ++
        ": " ++ verb ++ " value " ++ value ++ "\n"

/-- Diff entries for which the code's Array line coincides with the claim's
phrasing: every kind-A element addition carries a truthy value, so the code's
rhs-or-lhs fallback serialises the element itself. -/
def addedTruthy : DiffEntry → Bool
  | .A _ _ (.N rhs) => truthy rhs
  | _ => true

/-- Modelled from the spec, section 4.4 and claim C9: the textual report as
the specification words it — an id listed under New contributes only its bare
id line; an id listed under Updated contributes its bare id line plus one
kind-phrased line (specDiffLine) per entry of its recorded diff list, looked
up under the full id. -/
def specItems (dd : List (String × List (String × List DiffEntry)))
    (node : String) (isUpdated : Bool) : List (Option Json) → Option String
  | [] => some ""
  | idv :: rest =>
      match idv with
      | some (.str s) =>
          match specItems dd node isUpdated rest with
          | none => none
          | some t =>
              some ((if isUpdated then
                  "    - " ++ s ++ "\n" ++
                    String.join (((ddLookup dd node s).getD []).map specDiffLine)
                else "    - " ++ s ++ "\n") ++ t)
      | _ => none

/-- Modelled from the spec: the node walk of the specification's renderer. -/
def specNodes (dd : List (String × List (String × List DiffEntry)))
    (isUpdated : Bool) : List (String × List (Option Json)) → Option String
  | [] => some ""
  | (node, items) :: rest =>
      match specItems dd node isUpdated items with
      | none => none
      | some s =>
          match specNodes dd isUpdated rest with
          | none => none
          | some t => some ("  " ++ node ++ ":\n" ++ s ++ t)

/-- Modelled from the spec: one section of the specification's renderer. -/
def specSection (label : String) (entries : List (String × List (Option Json)))
    (dd : List (String × List (String × List DiffEntry))) (isUpdated : Bool) :
    Option String :=
  if entries.isEmpty then some ""
  else
    match specNodes dd isUpdated entries with
    | none => none
    | some s => some (label ++ ":\n" ++ s)

/-- Modelled from the spec: the whole textual report as claim C9 words it. -/
def specTextualReport (rNew rUpd : List (String × List (Option Json)))
    (dd : List (String × List (String × List DiffEntry))) : Option String :=
  match specSection "New" rNew dd false, specSection "Updated" rUpd dd true with
  | some a, some b => some (jsTrim (a ++ b))
  | _, _ => none


theorem getField_eq_lookup (j : Json) (f : String) :
    j.getField f = j.fieldsOf.lookup f := by
  cases j <;> rfl

theorem lookup_cons_self {β : Type} (k : String) (v : β) (t : List (String × β)) :
    List.lookup k ((k, v) :: t) = some v := by
  simp [List.lookup]

theorem lookup_cons_ne {β : Type} {k k0 : String} (v : β) (t : List (String × β))
    (h : k ≠ k0) : List.lookup k ((k0, v) :: t) = List.lookup k t := by
  simp [List.lookup, beq_false_of_ne h]

theorem lookup_filter_key {β : Type} (q : String → Bool) (l : List (String × β)) (k : String) :
    (l.filter (fun kv => q kv.1)).lookup k = if q k then l.lookup k else none := by
  induction l with
  | nil => simp [List.lookup]
  | cons kv t ih =>
      obtain ⟨k0, v0⟩ := kv
      by_cases hk : k = k0
      · subst hk
        cases hq : q k
        · rw [List.filter_cons, if_neg (by simp [hq]), ih, hq]
          simp
        · rw [List.filter_cons, if_pos (by simp [hq])]
          simp [lookup_cons_self, hq]
      · cases hq : q k0
        · rw [List.filter_cons, if_neg (by simp [hq]), ih, lookup_cons_ne v0 t hk]
        · rw [List.filter_cons, if_pos (by simp [hq]), lookup_cons_ne v0 _ hk, ih,
            lookup_cons_ne v0 t hk]

theorem lookup_append {β : Type} (xs ys : List (String × β)) (k : String) :
    (xs ++ ys).lookup k = ((xs.lookup k).or (ys.lookup k)) := by
  induction xs with
  | nil => simp [List.lookup]
  | cons kv t ih =>
      obtain ⟨k0, v0⟩ := kv
      by_cases hk : k = k0
      · subst hk
        rw [List.cons_append, lookup_cons_self, lookup_cons_self]
        rfl
      · rw [List.cons_append, lookup_cons_ne v0 _ hk, lookup_cons_ne v0 t hk, ih]

theorem lookup_spread_map (a b : List (String × Json)) (k : String) :
    ((a.map (fun kv =>
        match b.lookup kv.1 with
        | some v => (kv.1, v)
        | none => kv)).lookup k)
      = match a.lookup k with
        | some v => some ((b.lookup k).getD v)
        | none => none := by
  induction a with
  | nil => simp [List.lookup]
  | cons kv t ih =>
      obtain ⟨k0, v0⟩ := kv
      by_cases hk : k = k0
      · subst hk
        cases hb : b.lookup k <;>
          simp [List.map_cons, hb, lookup_cons_self]
      · cases hb : b.lookup k0 <;>
          simp [List.map_cons, hb, lookup_cons_ne _ _ hk, ih]

theorem lookup_spreadMerge (a b : List (String × Json)) (k : String) :
    (spreadMerge a b).lookup k = ((b.lookup k).or (a.lookup k)) := by
  unfold spreadMerge
  rw [lookup_append, lookup_spread_map, lookup_filter_key (fun k => (a.lookup k).isNone)]
  cases ha : a.lookup k <;> cases hb : b.lookup k <;> simp [ha, hb]

theorem lookup_filterObject (fs : List (String × Json)) (excl : List String) (k : String) :
    (filterObject fs excl).lookup k = if excl.contains k then none else fs.lookup k := by
  unfold filterObject
  have h := lookup_filter_key (fun k => !excl.contains k) fs k
  simp only at h
  rw [h]
  cases hc : excl.contains k <;> simp

theorem overwriteMap_lookup_self {β : Type} (l : List (String × β)) (k : String) (v : β) :
    ((l.map (fun kv => if kv.1 = k then (k, v) else kv)).lookup k)
      = if (l.lookup k).isSome then some v else none := by
  induction l with
  | nil => simp [List.lookup]
  | cons kv t ih =>
      obtain ⟨k0, v0⟩ := kv
      by_cases hk : k0 = k
      · subst hk
        simp [List.map_cons, lookup_cons_self]
      · rw [List.map_cons]
        simp only [if_neg (by simpa using hk)]
        rw [lookup_cons_ne v0 _ (Ne.symm hk), lookup_cons_ne v0 t (Ne.symm hk), ih]

theorem overwriteMap_lookup_ne {β : Type} (l : List (String × β)) (k k' : String) (v : β)
    (h : k' ≠ k) :
    ((l.map (fun kv => if kv.1 = k then (k, v) else kv)).lookup k') = l.lookup k' := by
  induction l with
  | nil => simp
  | cons kv t ih =>
      obtain ⟨k0, v0⟩ := kv
      by_cases hk : k0 = k
      · subst hk
        have hmap : ((k0, v0) :: t).map (fun kv => if kv.1 = k0 then (k0, v) else kv)
            = (k0, v) :: t.map (fun kv => if kv.1 = k0 then (k0, v) else kv) := by simp
        rw [hmap, lookup_cons_ne v _ h, lookup_cons_ne v0 t h, ih]
      · rw [List.map_cons]
        simp only [if_neg (by simpa using hk)]
        by_cases hk' : k' = k0
        · subst hk'
          rw [lookup_cons_self, lookup_cons_self]
        · rw [lookup_cons_ne v0 _ hk', lookup_cons_ne v0 t hk', ih]

theorem any_key_eq_lookup_isSome {β : Type} (l : List (String × β)) (k : String) :
    (l.any (fun kv => kv.1 == k)) = (l.lookup k).isSome := by
  induction l with
  | nil => simp [List.lookup]
  | cons kv t ih =>
      obtain ⟨k0, v0⟩ := kv
      by_cases hk : k0 = k
      · subst hk
        simp [lookup_cons_self]
      · rw [List.any_cons, lookup_cons_ne v0 t (Ne.symm hk), ← ih]
        simp [beq_false_of_ne hk]

theorem lookup_setAssoc_self {β : Type} (l : List (String × β)) (k : String) (v : β) :
    (setAssoc l k v).lookup k = some v := by
  unfold setAssoc
  cases h : l.any (fun kv => kv.1 == k)
  · rw [if_neg (by simp [h]), lookup_append]
    rw [any_key_eq_lookup_isSome] at h
    cases hl : l.lookup k
    · simp [lookup_cons_self]
    · rw [hl] at h; simp at h
  · rw [if_pos (by simp [h]), overwriteMap_lookup_self]
    rw [any_key_eq_lookup_isSome] at h
    simp [h]

theorem lookup_setAssoc_ne {β : Type} (l : List (String × β)) (k k' : String) (v : β)
    (h : k' ≠ k) :
    (setAssoc l k v).lookup k' = l.lookup k' := by
  unfold setAssoc
  cases hc : l.any (fun kv => kv.1 == k)
  · rw [if_neg (by simp [hc]), lookup_append]
    have h1 : List.lookup k' [(k, v)] = none := by
      rw [lookup_cons_ne v [] h]; rfl
    cases hl : l.lookup k' <;> simp [hl, h1]
  · rw [if_pos (by simp [hc])]
    exact overwriteMap_lookup_ne l k k' v h

theorem lookup_mem {β : Type} {l : List (String × β)} {k : String} {v : β}
    (h : l.lookup k = some v) : (k, v) ∈ l := by
  induction l with
  | nil => simp [List.lookup] at h
  | cons kv t ih =>
      obtain ⟨k0, v0⟩ := kv
      by_cases hk : k = k0
      · subst hk
        rw [lookup_cons_self] at h
        cases h
        simp
      · rw [lookup_cons_ne v0 t hk] at h
        simp [ih h]

theorem lookup_isSome_of_mem {β : Type} {l : List (String × β)} {k : String} {v : β}
    (h : (k, v) ∈ l) : (l.lookup k).isSome := by
  induction l with
  | nil => simp at h
  | cons kv t ih =>
      obtain ⟨k0, v0⟩ := kv
      rcases List.mem_cons.mp h with h1 | h1
      · cases h1; simp [lookup_cons_self]
      · by_cases hk : k = k0
        · subst hk; simp [lookup_cons_self]
        · rw [lookup_cons_ne v0 t hk]
          exact ih h1


theorem contains_arrayAdditions (l : List DiffEntry) (x : String) :
    (((l.filter (fun d => d.isA)).map (fun d => joinPath d.path)).contains x)
      = l.any (fun d2 => d2.isA && (joinPath d2.path == x)) := by
  induction l with
  | nil => rfl
  | cons d t ih =>
      cases hd : d.isA
      · rw [List.filter_cons, if_neg (by simp [hd]), List.any_cons, hd, ih]
        simp
      · rw [List.filter_cons, if_pos (by simp [hd]), List.map_cons, List.any_cons, hd, ← ih]
        rcases hc : (joinPath d.path == x) with _ | _
        · simp [List.contains, List.elem_cons, hc, BEq.comm]
          intro h
          rw [← h] at hc
          simp at hc
        · simp [List.contains, List.elem_cons, hc, BEq.comm]
          exact Or.inl (eq_of_beq hc).symm

/-- C7, counterexample: in the diff-list post-processing, the Edited entry at
path list.0 is dropped although the only kind-A entry at its parent path
records an array-element REMOVAL, not an addition (its nested item has kind
D); the claim predicts the entry is kept because no Array-element-added entry
exists in the pass. -/
theorem C7_cex :
    filterItemDiffs
        [.E [.str "list", .idx 0] (.num 1) (.num 3),
         .A [.str "list"] 1 (.D (.num 2))]
      = [.A [.str "list"] 1 (.D (.num 2))] ∧
    ([DiffEntry.E [.str "list", .idx 0] (.num 1) (.num 3),
      DiffEntry.A [.str "list"] 1 (.D (.num 2))].filter
        (fun d => match d with
          | .A _ _ (.N _) => true
          | _ => false)) = [] := by
  exact ⟨rfl, rfl⟩

/-- C7 (amended): a diff entry is dropped by the post-processing iff it has
kind E and some kind-A entry of the same pass — recording an array element
addition OR removal — has a dotted joined path equal to the dotted join of
the E entry's path without its last component; entries of all other kinds are
kept, in order. -/
theorem C7_amended (l : List DiffEntry) :
    filterItemDiffs l = l.filter (fun d =>
      match d with
      | .E p _ _ => !(l.any (fun d2 => d2.isA && (joinPath d2.path == joinPath p.dropLast)))
      | _ => true) := by
  unfold filterItemDiffs
  apply List.filter_congr
  intro d _
  cases d with
  | E p lhs rhs =>
      show (!(((l.filter (fun d => d.isA)).map (fun d => joinPath d.path)).contains
          (joinPath p.dropLast)))
        = (!(l.any (fun d2 => d2.isA && (joinPath d2.path == joinPath p.dropLast))))
      rw [contains_arrayAdditions]
  | N p rhs => rfl
  | D p lhs => rfl
  | A p i item => rfl

/-- C8, counterexample: an entity with a present but falsy slug field (the
empty string) and a key field derives its id from key, while the claim's
presence-based fallback predicts the slug value. -/
theorem C8_cex :
    (Json.obj [("slug", .str ""), ("key", .str "k")]).getField "slug" = some (.str "") ∧
    getUniqueId (Json.obj [("slug", .str ""), ("key", .str "k")]) = some (.str "k") ∧
    Json.str "k" ≠ Json.str "" := by
  refine ⟨rfl, rfl, fun h => ?_⟩
  injection h with h2
  exact absurd h2 (by decide)

/-- C8 (amended): the derived identifier is the first truthy value among the
slug, key and id fields: a truthy slug value wins; with a falsy or absent
slug, a truthy key value wins; with both falsy or absent, the id field's
value (possibly absent) is used. -/
theorem C8_amended (item : Json) :
    (truthyOpt (item.getField "slug") = true → getUniqueId item = item.getField "slug") ∧
    (truthyOpt (item.getField "slug") = false → truthyOpt (item.getField "key") = true →
      getUniqueId item = item.getField "key") ∧
    (truthyOpt (item.getField "slug") = false → truthyOpt (item.getField "key") = false →
      getUniqueId item = item.getField "id") := by
  unfold getUniqueId
  refine ⟨fun h => ?_, fun h1 h2 => ?_, fun h1 h2 => ?_⟩
  · rw [if_pos h]
  · rw [if_neg (by simp [h1]), if_pos h2]
  · rw [if_neg (by simp [h1]), if_neg (by simp [h2])]

/-- Witness for C8 (amended) at a concrete entity with a falsy slug. -/
theorem C8_amended_witness :
    truthyOpt ((Json.obj [("slug", .str ""), ("key", .str "k")]).getField "slug") = false ∧
    truthyOpt ((Json.obj [("slug", .str ""), ("key", .str "k")]).getField "key") = true ∧
    getUniqueId (Json.obj [("slug", .str ""), ("key", .str "k")]) =
      (Json.obj [("slug", .str ""), ("key", .str "k")]).getField "key" :=
  ⟨rfl, rfl, (C8_amended (Json.obj [("slug", .str ""), ("key", .str "k")])).2.1 rfl rfl⟩

end MergeSpec

namespace MergeSpec

theorem mem_setAssoc {β : Type} {l : List (String × β)} {k : String} {v : β} {kv : String × β}
    (h : kv ∈ setAssoc l k v) : kv ∈ l ∨ kv = (k, v) := by
  unfold setAssoc at h
  by_cases hc : (l.any (fun kv => kv.1 == k)) = true
  · rw [if_pos hc] at h
    rcases List.mem_map.mp h with ⟨kv0, hkv0, heq⟩
    by_cases hk : kv0.1 = k
    · right; rw [if_pos hk] at heq; exact heq.symm
    · left; rw [if_neg hk] at heq; exact heq ▸ hkv0
  · rw [if_neg hc] at h
    rcases List.mem_append.mp h with h1 | h1
    · exact Or.inl h1
    · right; simpa using h1

theorem renderItem_str (dd : List (String × List (String × List DiffEntry)))
    (node s : String) :
    renderItem dd node (some (Json.str s)) =
      match ddLookup dd node (beforeColon s) with
      | some ds => some ("    - " ++ s ++ "\n" ++ String.join (ds.map diffLine))
      | none => some ("    - " ++ s ++ "\n") := rfl

theorem get?_eq_some_getD {α : Type} (l : List α) (i : Nat) (d : α) (h : i < l.length) :
    l.get? i = some (l.getD i d) := by
  rw [List.getD_eq_getElem?_getD]
  cases hg : l[i]? with
  | none => rw [List.getElem?_eq_none_iff] at hg; omega
  | some x => simp [List.get?_eq_getElem?, hg]

theorem findIdx?_lt {α : Type} {l : List α} {p : α → Bool} {i : Nat}
    (h : l.findIdx? p = some i) : i < l.length := by
  rw [List.findIdx?_eq_some_iff_findIdx_eq] at h
  exact h.1

theorem recordMatched_titems_none (st : NodeState) (i : Nat) (idv : Option Json) :
    (recordMatched st i idv none).titems = st.titems := rfl

theorem recordMatched_titems_some (st : NodeState) (i : Nat) (idv : Option Json)
    (entity : Json) (ds : List DiffEntry) :
    (recordMatched st i idv (some (entity, ds))).titems = st.titems.set i entity := by
  by_cases h : ds.isEmpty = true <;> simp [recordMatched, h]

theorem processItem_matched (o a : Bool) (e : List String) (st : NodeState)
    (sourceItem : Json) (idx : Nat)
    (hidx : st.titems.findIdx? (fun item =>
      strictEqOpt (getUniqueId item) (getUniqueId sourceItem)) = some idx) :
    processItem o a e st sourceItem = recordMatched st idx (getUniqueId sourceItem)
      (mergeEntity o a e (st.titems.getD idx Json.null) sourceItem) := by
  unfold processItem
  rw [hidx]

theorem mergeEntity_noappend_overwrite (e : List String) (tgt src : Json) :
    mergeEntity true false e tgt src =
      some (Json.obj (spreadMerge (filterObject tgt.fieldsOf e) (filterObject src.fieldsOf e)),
        mergeBase true e tgt src) := rfl

theorem mergeEntity_noappend_noover (e : List String) (tgt src : Json) :
    mergeEntity false false e tgt src = none := rfl

theorem mergeEntity_append (o : Bool) (e : List String) (tgt src : Json) :
    mergeEntity o true e tgt src =
      some (Json.obj (appendArrays (filterObject tgt.fieldsOf e)
              (filterObject src.fieldsOf e) (mergeBase o e tgt src)).1,
            (appendArrays (filterObject tgt.fieldsOf e)
              (filterObject src.fieldsOf e) (mergeBase o e tgt src)).2) := rfl

theorem mem_filterObject_not_excluded {fs : List (String × Json)} {excl : List String}
    {kv : String × Json} (h : kv ∈ filterObject fs excl) :
    excl.contains kv.1 = false := by
  unfold filterObject at h
  have := (List.mem_filter.mp h).2
  simpa using this

theorem mem_spreadMerge {a b : List (String × Json)} {kv : String × Json}
    (h : kv ∈ spreadMerge a b) :
    (∃ v, (kv.1, v) ∈ a) ∨ kv ∈ b := by
  unfold spreadMerge at h
  rcases List.mem_append.mp h with h1 | h1
  · rcases List.mem_map.mp h1 with ⟨kv0, hkv0, heq⟩
    left
    cases hb : b.lookup kv0.1 with
    | none =>
        rw [hb] at heq
        have hk : kv0 = kv := heq
        subst hk
        exact ⟨kv0.2, by simpa using hkv0⟩
    | some v =>
        rw [hb] at heq
        refine ⟨kv0.2, ?_⟩
        have h1 : kv.1 = kv0.1 := by rw [← heq]
        rw [h1]
        simpa using hkv0
  · exact Or.inr (List.mem_filter.mp h1).1

theorem foldl_appendStep_keys (P : String → Prop) :
    ∀ (sf : List (String × Json)) (acc : List (String × Json) × List DiffEntry),
      (∀ kv ∈ acc.1, P kv.1) →
      ∀ kv ∈ (sf.foldl appendStep acc).1, P kv.1 := by
  intro sf
  induction sf with
  | nil => exact fun acc h => h
  | cons kv0 rest ih =>
      intro acc h
      rw [List.foldl_cons]
      apply ih
      unfold appendStep
      cases hl : acc.1.lookup kv0.1 with
      | none => cases kv0.2 <;> exact h
      | some v =>
          cases v with
          | arr targetArr =>
              cases hv2 : kv0.2 with
              | arr sourceArr =>
                  intro kv hkv
                  rcases mem_setAssoc hkv with h1 | h1
                  · exact h kv h1
                  · rw [h1]
                    exact h (kv0.1, Json.arr targetArr) (lookup_mem hl)
              | null => exact h
              | bool b => exact h
              | num n => exact h
              | str s => exact h
              | obj fs => exact h
          | null => cases kv0.2 <;> exact h
          | bool b => cases kv0.2 <;> exact h
          | num n => cases kv0.2 <;> exact h
          | str s => cases kv0.2 <;> exact h
          | obj fs => cases kv0.2 <;> exact h

/-- C1, counterexample: with overwrite=true and appendArrayValues=true, the
matched entity's differing non-excluded field title keeps the target's value
T instead of taking the source's value S as the claim states, because the
appendArrayValues block's final assignment stores the filtered target entity
over the spread union. -/
theorem C1_cex :
    (match mergeImportData
        [("form", Json.arr [Json.obj [("slug", Json.str "a"), ("title", Json.str "S")]])]
        [("form", Json.arr [Json.obj [("slug", Json.str "a"), ("title", Json.str "T")]])]
        true true [] with
      | MergeOutcome.ok acc _ => acc.target.lookup "form"
      | _ => none)
      = some (Json.arr [Json.obj [("slug", Json.str "a"), ("title", Json.str "T")]]) ∧
    (Json.obj [("slug", Json.str "a"), ("title", Json.str "S")]).getField "title"
      = some (Json.str "S") ∧
    Json.str "T" ≠ Json.str "S" :=
  ⟨rfl, rfl, fun h => by injection h with h2; exact absurd h2 (by decide)⟩

/-- C1 (amended): with appendArrayValues=false, for a matched source/target
entity pair and a non-excluded field present with differing values in both
entities, overwrite=true makes the merged target entity's value of the field
equal the source entity's value, and overwrite=false leaves the matched
target entity untouched, so the field keeps the target's original value. -/
theorem C1_amended (overwrite : Bool) (excl : List String) (st : NodeState)
    (sourceItem : Json) (idx : Nat)
    (hidx : st.titems.findIdx? (fun item =>
      strictEqOpt (getUniqueId item) (getUniqueId sourceItem)) = some idx)
    (f : String) (hf : excl.contains f = false)
    (vs vt : Json)
    (hvs : sourceItem.getField f = some vs)
    (hvt : (st.titems.getD idx Json.null).getField f = some vt)
    (hne : vs ≠ vt) :
    ∃ entity, (processItem overwrite false excl st sourceItem).titems.get? idx = some entity ∧
      entity.getField f = some (if overwrite then vs else vt) := by
  have hlt : idx < st.titems.length := findIdx?_lt hidx
  rw [processItem_matched overwrite false excl st sourceItem idx hidx]
  cases overwrite with
  | false =>
      rw [mergeEntity_noappend_noover]
      refine ⟨st.titems.getD idx Json.null, ?_, ?_⟩
      · rw [recordMatched_titems_none]
        exact get?_eq_some_getD _ _ _ hlt
      · rw [hvt]
        rfl
  | true =>
      rw [mergeEntity_noappend_overwrite]
      refine ⟨Json.obj (spreadMerge
          (filterObject (st.titems.getD idx Json.null).fieldsOf excl)
          (filterObject sourceItem.fieldsOf excl)), ?_, ?_⟩
      · rw [recordMatched_titems_some]
        rw [List.get?_eq_getElem?]
        exact List.getElem?_set_eq_of_lt _ hlt
      · show ((spreadMerge (filterObject (st.titems.getD idx Json.null).fieldsOf excl)
            (filterObject sourceItem.fieldsOf excl)).lookup f) = some vs
        rw [lookup_spreadMerge, lookup_filterObject,
          if_neg (by rw [hf]; exact Bool.false_ne_true),
          ← getField_eq_lookup, hvs]
        rfl

/-- Witness for C1 (amended) at a concrete matched pair with a differing
title field under overwrite. -/
theorem C1_amended_witness :
    (["createdate"].contains "title" = false) ∧
    (∃ entity,
      (processItem true false ["createdate"]
        { titems := [Json.obj [("slug", Json.str "a"), ("title", Json.str "T")]],
          nupdates := [], nnew := [], nupd := [], ndiffs := [] }
        (Json.obj [("slug", Json.str "a"), ("title", Json.str "S")])).titems.get? 0
        = some entity ∧
      entity.getField "title" = some (if true then Json.str "S" else Json.str "T")) :=
  ⟨rfl,
    C1_amended true ["createdate"]
      { titems := [Json.obj [("slug", Json.str "a"), ("title", Json.str "T")]],
        nupdates := [], nnew := [], nupd := [], ndiffs := [] }
      (Json.obj [("slug", Json.str "a"), ("title", Json.str "S")]) 0 rfl
      "title" rfl (Json.str "S") (Json.str "T") rfl rfl
      (fun h => by injection h with h2; exact absurd h2 (by decide))⟩

/-- C4, counterexample: with overwrite=true and appendArrayValues=true the
merged target entity is not the shallow union of the filtered entities — its
name field keeps the target's value TGT while the union's name field is the
source's SRC. -/
theorem C4_cex :
    (match mergeImportData
        [("form", Json.arr [Json.obj [("slug", Json.str "a"), ("name", Json.str "SRC")]])]
        [("form", Json.arr [Json.obj [("slug", Json.str "a"), ("name", Json.str "TGT")]])]
        true true [] with
      | MergeOutcome.ok acc _ => acc.target.lookup "form"
      | _ => none)
      = some (Json.arr [Json.obj [("slug", Json.str "a"), ("name", Json.str "TGT")]]) ∧
    (Json.obj (spreadMerge
        (filterObject (Json.obj [("slug", Json.str "a"), ("name", Json.str "TGT")]).fieldsOf [])
        (filterObject (Json.obj [("slug", Json.str "a"), ("name", Json.str "SRC")]).fieldsOf
          []))).getField "name"
      = some (Json.str "SRC") ∧
    Json.str "TGT" ≠ Json.str "SRC" :=
  ⟨rfl, rfl, fun h => by injection h with h2; exact absurd h2 (by decide)⟩

/-- C4 (amended): under overwrite=true and appendArrayValues=false, the
merged target entity at the matched index is the shallow union of the
attribute-filtered target entity and the attribute-filtered source entity —
at every field name the merged value is the filtered source's value when
present, else the filtered target's value — and in particular every field
present only in the filtered target entity is preserved, not deleted. -/
theorem C4_amended (excl : List String) (st : NodeState) (sourceItem : Json) (idx : Nat)
    (hidx : st.titems.findIdx? (fun item =>
      strictEqOpt (getUniqueId item) (getUniqueId sourceItem)) = some idx) :
    ∃ entity, (processItem true false excl st sourceItem).titems.get? idx = some entity ∧
      (∀ f, entity.getField f =
        (((filterObject sourceItem.fieldsOf excl).lookup f).or
         ((filterObject (st.titems.getD idx Json.null).fieldsOf excl).lookup f))) ∧
      (∀ f v, (filterObject (st.titems.getD idx Json.null).fieldsOf excl).lookup f = some v →
        (filterObject sourceItem.fieldsOf excl).lookup f = none →
        entity.getField f = some v) := by
  have hlt : idx < st.titems.length := findIdx?_lt hidx
  rw [processItem_matched true false excl st sourceItem idx hidx,
    mergeEntity_noappend_overwrite]
  refine ⟨Json.obj (spreadMerge
      (filterObject (st.titems.getD idx Json.null).fieldsOf excl)
      (filterObject sourceItem.fieldsOf excl)), ?_, ?_, ?_⟩
  · rw [recordMatched_titems_some, List.get?_eq_getElem?]
    exact List.getElem?_set_eq_of_lt _ hlt
  · intro f
    show ((spreadMerge (filterObject (st.titems.getD idx Json.null).fieldsOf excl)
        (filterObject sourceItem.fieldsOf excl)).lookup f) = _
    rw [lookup_spreadMerge]
  · intro f v h1 h2
    show ((spreadMerge (filterObject (st.titems.getD idx Json.null).fieldsOf excl)
        (filterObject sourceItem.fieldsOf excl)).lookup f) = some v
    rw [lookup_spreadMerge, h1, h2]
    rfl

/-- Witness for C4 (amended) at a concrete matched pair: the source lacks the
target-only field extra, which is preserved in the merged entity. -/
theorem C4_amended_witness :
    (∃ entity,
      (processItem true false []
        { titems := [Json.obj [("slug", Json.str "a"), ("extra", Json.num 7)]],
          nupdates := [], nnew := [], nupd := [], ndiffs := [] }
        (Json.obj [("slug", Json.str "a"), ("name", Json.str "SRC")])).titems.get? 0
        = some entity ∧
      (∀ f, entity.getField f =
        (((filterObject (Json.obj [("slug", Json.str "a"),
            ("name", Json.str "SRC")]).fieldsOf []).lookup f).or
         ((filterObject (([Json.obj [("slug", Json.str "a"),
            ("extra", Json.num 7)]].getD 0 Json.null)).fieldsOf []).lookup f))) ∧
      (∀ f v, (filterObject (([Json.obj [("slug", Json.str "a"),
            ("extra", Json.num 7)]].getD 0 Json.null)).fieldsOf []).lookup f = some v →
        (filterObject (Json.obj [("slug", Json.str "a"),
            ("name", Json.str "SRC")]).fieldsOf []).lookup f = none →
        entity.getField f = some v)) :=
  C4_amended []
    { titems := [Json.obj [("slug", Json.str "a"), ("extra", Json.num 7)]],
      nupdates := [], nnew := [], nupd := [], ndiffs := [] }
    (Json.obj [("slug", Json.str "a"), ("name", Json.str "SRC")]) 0 rfl

/-- C10: when a source entity matches a target entity by derived id and
overwrite or appendArrayValues is set, the target entity at the matched index
is replaced by an object built only from non-excluded field names — every
field named in excludeAttributes is absent from the merged entity — and this
holds under appendArrayValues=true even with overwrite=false and no array
element appended; only with overwrite=false and appendArrayValues=false is
the state, in particular the matched target entity, left untouched. -/
theorem C10_frame (o a : Bool) (excl : List String) (st : NodeState) (sourceItem : Json)
    (idx : Nat)
    (hidx : st.titems.findIdx? (fun item =>
      strictEqOpt (getUniqueId item) (getUniqueId sourceItem)) = some idx) :
    ((o = true ∨ a = true) →
      ∃ fs, (processItem o a excl st sourceItem).titems.get? idx = some (Json.obj fs) ∧
        (∀ kv ∈ fs, excl.contains kv.1 = false) ∧
        (∀ f, excl.contains f = true → (Json.obj fs).getField f = none)) ∧
    ((o = false ∧ a = false) → processItem o a excl st sourceItem = st) := by
  have hlt : idx < st.titems.length := findIdx?_lt hidx
  rw [processItem_matched o a excl st sourceItem idx hidx]
  constructor
  · intro hoa
    have main : ∀ fs : List (String × Json),
        (∀ kv ∈ fs, excl.contains kv.1 = false) →
        (∀ f, excl.contains f = true → (Json.obj fs).getField f = none) := by
      intro fs hkeys f hcf
      show fs.lookup f = none
      cases hl : fs.lookup f with
      | none => rfl
      | some v =>
          have hmem := lookup_mem hl
          have := hkeys (f, v) hmem
          rw [hcf] at this
          exact absurd this (by simp)
    cases a with
    | true =>
        rw [mergeEntity_append]
        refine ⟨(appendArrays (filterObject (st.titems.getD idx Json.null).fieldsOf excl)
            (filterObject sourceItem.fieldsOf excl)
            (mergeBase o excl (st.titems.getD idx Json.null) sourceItem)).1, ?_, ?_, ?_⟩
        · rw [recordMatched_titems_some, List.get?_eq_getElem?]
          exact List.getElem?_set_eq_of_lt _ hlt
        · exact foldl_appendStep_keys (fun key => excl.contains key = false) _ _
            (fun kv hkv => mem_filterObject_not_excluded hkv)
        · exact main _ (foldl_appendStep_keys (fun key => excl.contains key = false) _ _
            (fun kv hkv => mem_filterObject_not_excluded hkv))
    | false =>
        cases o with
        | false =>
            rcases hoa with h1 | h1 <;> exact absurd h1 (by simp)
        | true =>
            rw [mergeEntity_noappend_overwrite]
            have hkeys : ∀ kv ∈ spreadMerge
                (filterObject (st.titems.getD idx Json.null).fieldsOf excl)
                (filterObject sourceItem.fieldsOf excl), excl.contains kv.1 = false := by
              intro kv hkv
              rcases mem_spreadMerge hkv with ⟨v, hv⟩ | hv
              · have h2 := @mem_filterObject_not_excluded
                    ((st.titems.getD idx Json.null).fieldsOf) excl (kv.1, v) hv
                exact h2
              · exact mem_filterObject_not_excluded hv
            refine ⟨spreadMerge (filterObject (st.titems.getD idx Json.null).fieldsOf excl)
                (filterObject sourceItem.fieldsOf excl), ?_, hkeys, main _ hkeys⟩
            rw [recordMatched_titems_some, List.get?_eq_getElem?]
            exact List.getElem?_set_eq_of_lt _ hlt
  · rintro ⟨ho, ha⟩
    subst ho
    subst ha
    rw [mergeEntity_noappend_noover]
    rfl

/-- Witness for C10 at a concrete matched pair under appendArrayValues=true,
overwrite=false, with an excluded field createdate on the target entity and
no array field at all. -/
theorem C10_frame_witness :
    (false = true ∨ true = true) ∧
    (∃ fs,
      (processItem false true ["createdate"]
        { titems := [Json.obj [("slug", Json.str "a"), ("createdate", Json.str "2020")]],
          nupdates := [], nnew := [], nupd := [], ndiffs := [] }
        (Json.obj [("slug", Json.str "a")])).titems.get? 0 = some (Json.obj fs) ∧
      (∀ kv ∈ fs, (["createdate"].contains kv.1) = false) ∧
      (∀ f, (["createdate"].contains f) = true → (Json.obj fs).getField f = none)) :=
  ⟨Or.inr rfl,
    (C10_frame false true ["createdate"]
      { titems := [Json.obj [("slug", Json.str "a"), ("createdate", Json.str "2020")]],
        nupdates := [], nnew := [], nupd := [], ndiffs := [] }
      (Json.obj [("slug", Json.str "a")]) 0 rfl).1 (Or.inr rfl)⟩

/-- C2: a source entity whose derived id strictly matches no entity of the
target sequence at processing time is appended verbatim (the same value, no
field altered) at the end of the target sequence, is included in this key's
updates, and its id is recorded under the New section; the Updated section
and the detailed diffs are untouched by it. -/
theorem C2_new_passthrough (o a : Bool) (e : List String) (st : NodeState)
    (sourceItem : Json)
    (hnone : ∀ item ∈ st.titems,
      strictEqOpt (getUniqueId item) (getUniqueId sourceItem) = false) :
    processItem o a e st sourceItem =
      { titems := st.titems ++ [sourceItem]
        nupdates := st.nupdates ++ [sourceItem]
        nnew := st.nnew ++ [getUniqueId sourceItem]
        nupd := st.nupd
        ndiffs := st.ndiffs } := by
  unfold processItem
  rw [List.findIdx?_eq_none_iff.mpr hnone]

/-- Witness for C2 at a concrete unmatched entity. -/
theorem C2_new_passthrough_witness :
    (∀ item ∈ [Json.obj [("slug", Json.str "b")]],
      strictEqOpt (getUniqueId item) (getUniqueId (Json.obj [("slug", Json.str "n")]))
        = false) ∧
    processItem false false []
      { titems := [Json.obj [("slug", Json.str "b")]],
        nupdates := [], nnew := [], nupd := [], ndiffs := [] }
      (Json.obj [("slug", Json.str "n")]) =
      { titems := [Json.obj [("slug", Json.str "b")]] ++ [Json.obj [("slug", Json.str "n")]]
        nupdates := [] ++ [Json.obj [("slug", Json.str "n")]]
        nnew := [] ++ [getUniqueId (Json.obj [("slug", Json.str "n")])]
        nupd := []
        ndiffs := [] } :=
  ⟨fun item h => by
      rw [List.mem_singleton] at h
      subst h
      rfl,
   C2_new_passthrough false false []
      { titems := [Json.obj [("slug", Json.str "b")]],
        nupdates := [], nnew := [], nupd := [], ndiffs := [] }
      (Json.obj [("slug", Json.str "n")])
      (fun item h => by
        rw [List.mem_singleton] at h
        subst h
        rfl)⟩

theorem dArrN_path (path : List PKey) :
    ∀ (rs : List Json) (i : Nat), ∀ e ∈ dArrN path i rs, DiffEntry.path e = path := by
  intro rs
  induction rs with
  | nil => intro i e he; simp [dArrN] at he
  | cons r rest ih =>
      intro i e he
      rw [dArrN] at he
      rcases List.mem_cons.mp he with h | h
      · rw [h]; rfl
      · exact ih (i + 1) e h

theorem deepDiff_paths :
    (∀ (path : List PKey) (l r : Json), ∀ e ∈ deepDiff path l r,
      ∃ rest, DiffEntry.path e = path ++ rest) ∧
    (∀ (path : List PKey) (lf rf : List (String × Json)), ∀ e ∈ dObjL path lf rf,
      ∃ k rest, DiffEntry.path e = path ++ (PKey.str k :: rest) ∧ ∃ v, (k, v) ∈ lf) ∧
    (∀ (path : List PKey) (i : Nat) (ls rs : List Json), ∀ e ∈ dArr path i ls rs,
      ∃ rest, DiffEntry.path e = path ++ rest) := by
  refine deepDiff.mutual_induct
    (fun path l r => ∀ e ∈ deepDiff path l r, ∃ rest, DiffEntry.path e = path ++ rest)
    (fun path lf rf => ∀ e ∈ dObjL path lf rf,
      ∃ k rest, DiffEntry.path e = path ++ (PKey.str k :: rest) ∧ ∃ v, (k, v) ∈ lf)
    (fun path i ls rs => ∀ e ∈ dArr path i ls rs, ∃ rest, DiffEntry.path e = path ++ rest)
    ?_ ?_ ?_ ?_ ?_ ?_ ?_ ?_ ?_ ?_
  · intro t path r h e he
    rw [deepDiff.eq_def, if_pos h] at he
    rw [List.mem_singleton.mp he]
    exact ⟨[], by simp [DiffEntry.path]⟩
  · intro path ls rs hne hM3 e he
    rw [deepDiff.eq_def, if_neg hne] at he
    exact hM3 e he
  · intro path lf rf hne hM2 e he
    rw [deepDiff.eq_def, if_neg hne] at he
    rcases List.mem_append.mp he with h1 | h1
    · obtain ⟨k, rest, hp, _, _⟩ := hM2 e h1
      exact ⟨PKey.str k :: rest, hp⟩
    · rcases List.mem_map.mp h1 with ⟨kv, _, heq⟩
      rw [← heq]
      exact ⟨[PKey.str kv.1], by simp [DiffEntry.path]⟩
  · intro path l r hexa hexo hbeq hne e he
    cases l <;> cases r <;>
      first
        | exact absurd rfl hne
        | exact (hexa _ _ rfl rfl).elim
        | exact (hexo _ _ rfl rfl).elim
        | (rw [deepDiff.eq_def, if_neg hne] at he
           simp [hbeq] at he)
  · intro path l r hexa hexo hbeq hne e he
    cases l <;> cases r <;>
      first
        | exact absurd rfl hne
        | exact (hexa _ _ rfl rfl).elim
        | exact (hexo _ _ rfl rfl).elim
        | (rw [deepDiff.eq_def, if_neg hne] at he
           simp [hbeq] at he
           rw [he]
           exact ⟨[], by simp [DiffEntry.path]⟩)
  · intro path i rs e he
    rw [dArr] at he
    rw [dArrN_path path rs i e he]
    exact ⟨[], by simp⟩
  · intro path i l ls ih e he
    rw [dArr] at he
    rcases List.mem_cons.mp he with h | h
    · rw [h]
      exact ⟨[], by simp [DiffEntry.path]⟩
    · exact ih e h
  · intro path i l ls r rs hM1 ih e he
    rw [dArr] at he
    rcases List.mem_append.mp he with h1 | h1
    · obtain ⟨rest, hp⟩ := hM1 e h1
      refine ⟨PKey.idx i :: rest, ?_⟩
      rw [hp, List.append_assoc]
      rfl
    · exact ih e h1
  · intro path rf e he
    rw [dObjL] at he
    simp at he
  · intro path rf k v lf hM1 ih e he
    rw [dObjL] at he
    rcases List.mem_append.mp he with h1 | h1
    · cases hl : rf.lookup k with
      | some rv =>
          rw [hl] at h1
          obtain ⟨rest, hp⟩ := hM1 rv e h1
          refine ⟨k, rest, ?_, v, by simp⟩
          rw [hp, List.append_assoc]
          rfl
      | none =>
          rw [hl] at h1
          rw [List.mem_singleton.mp h1]
          refine ⟨k, [], ?_, v, by simp⟩
          simp [DiffEntry.path]
    · obtain ⟨k1, rest, hp, v1, hv1⟩ := ih e h1
      exact ⟨k1, rest, hp, v1, List.mem_cons_of_mem _ hv1⟩

theorem diff_obj_heads (a b : List (String × Json)) (e : DiffEntry)
    (he : e ∈ diff (Json.obj a) (Json.obj b)) :
    ∃ k rest, DiffEntry.path e = PKey.str k :: rest ∧
      ((∃ v, (k, v) ∈ a) ∨ (∃ v, (k, v) ∈ b)) := by
  have hunfold : diff (Json.obj a) (Json.obj b)
      = dObjL [] a b ++ (b.filter (fun kv => (a.lookup kv.1).isNone)).map
          (fun kv => DiffEntry.N ([] ++ [PKey.str kv.1]) kv.2) := rfl
  rw [hunfold] at he
  rcases List.mem_append.mp he with h1 | h1
  · obtain ⟨k, rest, hp, v, hv⟩ := deepDiff_paths.2.1 [] a b e h1
    exact ⟨k, rest, by simpa using hp, Or.inl ⟨v, hv⟩⟩
  · rcases List.mem_map.mp h1 with ⟨kv, hkv, heq⟩
    refine ⟨kv.1, [], ?_, Or.inr ⟨kv.2, by simpa using (List.mem_filter.mp hkv).1⟩⟩
    rw [← heq]
    simp [DiffEntry.path]

theorem foldl_appendStep_diffs (Q : DiffEntry → Prop) :
    ∀ (sf : List (String × Json)) (acc : List (String × Json) × List DiffEntry),
      (∀ d ∈ acc.2, Q d) →
      (∀ kv ∈ sf, ∀ i it, Q (DiffEntry.A [PKey.str kv.1] i (DiffItem.N it))) →
      ∀ d ∈ (sf.foldl appendStep acc).2, Q d := by
  intro sf
  induction sf with
  | nil => exact fun acc h _ => h
  | cons kv0 rest ih =>
      intro acc h hA
      rw [List.foldl_cons]
      apply ih
      · unfold appendStep
        cases hl : acc.1.lookup kv0.1 with
        | none => cases kv0.2 <;> exact h
        | some v =>
            cases v with
            | arr targetArr =>
                cases hv2 : kv0.2 with
                | arr sourceArr =>
                    intro d hd
                    rcases List.mem_append.mp hd with h1 | h1
                    · exact h d h1
                    · rcases List.mem_map.mp h1 with ⟨it, _, heq⟩
                      rw [← heq]
                      exact hA kv0 (by simp) _ _
                | null => exact h
                | bool b => exact h
                | num n => exact h
                | str s => exact h
                | obj fs => exact h
            | null => cases kv0.2 <;> exact h
            | bool b => cases kv0.2 <;> exact h
            | num n => cases kv0.2 <;> exact h
            | str s => cases kv0.2 <;> exact h
            | obj fs => cases kv0.2 <;> exact h
      · exact fun kv hkv => hA kv (List.mem_cons_of_mem _ hkv)

theorem mem_of_mem_filterItemDiffs {d : DiffEntry} {l : List DiffEntry}
    (h : d ∈ filterItemDiffs l) : d ∈ l := by
  unfold filterItemDiffs at h
  exact List.mem_of_mem_filter h

theorem mergeEntity_diff_heads (o a : Bool) (excl : List String) (tgt src : Json)
    (entity : Json) (ds : List DiffEntry)
    (hm : mergeEntity o a excl tgt src = some (entity, ds)) :
    ∀ d ∈ ds, ∃ k rest, DiffEntry.path d = PKey.str k :: rest ∧
      excl.contains k = false := by
  have hbase : ∀ d ∈ mergeBase o excl tgt src, ∃ k rest,
      DiffEntry.path d = PKey.str k :: rest ∧ excl.contains k = false := by
    intro d hd
    unfold mergeBase at hd
    cases o with
    | false => simp at hd
    | true =>
        rw [if_pos rfl] at hd
        obtain ⟨k, rest, hp, hin⟩ := diff_obj_heads _ _ d hd
        refine ⟨k, rest, hp, ?_⟩
        rcases hin with ⟨v, hv⟩ | ⟨v, hv⟩
        · exact @mem_filterObject_not_excluded _ _ (k, v) hv
        · exact @mem_filterObject_not_excluded _ _ (k, v) hv
  cases a with
  | false =>
      cases o with
      | false => rw [mergeEntity_noappend_noover] at hm; exact nomatch hm
      | true =>
          rw [mergeEntity_noappend_overwrite] at hm
          injection hm with hm2
          injection hm2 with hent hds
          rw [← hds]
          exact hbase
  | true =>
      rw [mergeEntity_append] at hm
      injection hm with hm2
      injection hm2 with hent hds
      rw [← hds]
      exact foldl_appendStep_diffs
        (fun d => ∃ k rest, DiffEntry.path d = PKey.str k :: rest ∧ excl.contains k = false)
        (filterObject src.fieldsOf excl)
        (filterObject tgt.fieldsOf excl, mergeBase o excl tgt src)
        hbase
        (fun kv hkv _ _ => ⟨kv.1, [], rfl, mem_filterObject_not_excluded hkv⟩)

theorem recordMatched_ndiffs_some (st : NodeState) (i : Nat) (idv : Option Json)
    (entity : Json) (ds : List DiffEntry) :
    (recordMatched st i idv (some (entity, ds))).ndiffs = st.ndiffs ∨
    (recordMatched st i idv (some (entity, ds))).ndiffs
      = setAssoc st.ndiffs (jsKeyOfId idv) (filterItemDiffs ds) := by
  by_cases h : ds.isEmpty = true <;> simp [recordMatched, h]

theorem lookup_none_of_keys {fs : List (String × Json)} {excl : List String} {f : String}
    (hkeys : ∀ kv ∈ fs, excl.contains kv.1 = false) (hf : excl.contains f = true) :
    fs.lookup f = none := by
  cases hl : fs.lookup f with
  | none => rfl
  | some v =>
      have h2 := hkeys (f, v) (lookup_mem hl)
      rw [hf] at h2
      exact absurd h2 (by simp)

theorem mergeEntity_keys (o a : Bool) (excl : List String) (tgt src entity : Json)
    (ds : List DiffEntry)
    (hm : mergeEntity o a excl tgt src = some (entity, ds)) :
    ∃ fs, entity = Json.obj fs ∧ ∀ kv ∈ fs, excl.contains kv.1 = false := by
  cases a with
  | true =>
      rw [mergeEntity_append] at hm
      injection hm with hm2
      injection hm2 with hent hds
      refine ⟨_, hent.symm, ?_⟩
      exact foldl_appendStep_keys (fun key => excl.contains key = false) _ _
        (fun kv hkv => mem_filterObject_not_excluded hkv)
  | false =>
      cases o with
      | false => rw [mergeEntity_noappend_noover] at hm; exact nomatch hm
      | true =>
          rw [mergeEntity_noappend_overwrite] at hm
          injection hm with hm2
          injection hm2 with hent hds
          refine ⟨_, hent.symm, ?_⟩
          intro kv hkv
          rcases mem_spreadMerge hkv with ⟨v, hv⟩ | hv
          · have h2 := @mem_filterObject_not_excluded _ _ (kv.1, v) hv
            exact h2
          · exact mem_filterObject_not_excluded hv

/-- C5: for a field name listed in excludeAttributes and all values of
overwrite and appendArrayValues: every diff-list entry newly recorded in the
detailed diffs by an entity-processing step has a path headed by a
non-excluded field name (so no diff entry over the excluded field ever
reaches detailedDiffs, from which both the textual and the HTML report draw
all change lines), and the merged value of the excluded field in a matched
target entity is either the target entity's original value (untouched case)
or absent — the source entity's value of the excluded field is never copied
into the merged entity. -/
theorem C5_exclusion (o a : Bool) (excl : List String) (st : NodeState)
    (sourceItem : Json) (f : String) (hf : excl.contains f = true) :
    (∀ kd ∈ (processItem o a excl st sourceItem).ndiffs,
      kd ∈ st.ndiffs ∨
      ∀ d ∈ kd.2, ∃ k rest, DiffEntry.path d = PKey.str k :: rest ∧
        excl.contains k = false) ∧
    (∀ idx, st.titems.findIdx? (fun item =>
        strictEqOpt (getUniqueId item) (getUniqueId sourceItem)) = some idx →
      ∃ entity, (processItem o a excl st sourceItem).titems.get? idx = some entity ∧
        (entity.getField f = (st.titems.getD idx Json.null).getField f ∨
         entity.getField f = none)) := by
  constructor
  · cases hidx : st.titems.findIdx? (fun item =>
        strictEqOpt (getUniqueId item) (getUniqueId sourceItem)) with
    | none =>
        unfold processItem
        rw [hidx]
        intro kd hkd
        exact Or.inl hkd
    | some idx =>
        rw [processItem_matched o a excl st sourceItem idx hidx]
        cases hm : mergeEntity o a excl (st.titems.getD idx Json.null) sourceItem with
        | none => intro kd hkd; exact Or.inl hkd
        | some p =>
            obtain ⟨entity, ds⟩ := p
            intro kd hkd
            rcases recordMatched_ndiffs_some st idx (getUniqueId sourceItem) entity ds
              with hr | hr
            · rw [hr] at hkd
              exact Or.inl hkd
            · rw [hr] at hkd
              rcases mem_setAssoc hkd with h1 | h1
              · exact Or.inl h1
              · right
                intro d hd
                rw [h1] at hd
                exact mergeEntity_diff_heads o a excl _ _ entity ds hm d
                  (mem_of_mem_filterItemDiffs hd)
  · intro idx hidx
    have hlt : idx < st.titems.length := findIdx?_lt hidx
    rw [processItem_matched o a excl st sourceItem idx hidx]
    cases hm : mergeEntity o a excl (st.titems.getD idx Json.null) sourceItem with
    | none =>
        refine ⟨st.titems.getD idx Json.null, ?_, Or.inl rfl⟩
        rw [recordMatched_titems_none]
        exact get?_eq_some_getD _ _ _ hlt
    | some p =>
        obtain ⟨entity, ds⟩ := p
        obtain ⟨fs, hent, hkeys⟩ := mergeEntity_keys o a excl _ _ entity ds hm
        refine ⟨entity, ?_, Or.inr ?_⟩
        · rw [recordMatched_titems_some, List.get?_eq_getElem?]
          exact List.getElem?_set_eq_of_lt _ hlt
        · rw [hent]
          show fs.lookup f = none
          exact lookup_none_of_keys hkeys hf

/-- Witness for C5 at a concrete matched pair with excluded field createdate
differing between source and target. -/
theorem C5_exclusion_witness :
    (["createdate"].contains "createdate" = true) ∧
    ((∀ kd ∈ (processItem true false ["createdate"]
        { titems := [Json.obj [("slug", Json.str "a"), ("createdate", Json.str "2020")]],
          nupdates := [], nnew := [], nupd := [], ndiffs := [] }
        (Json.obj [("slug", Json.str "a"), ("createdate", Json.str "2021")])).ndiffs,
      kd ∈ ([] : List (String × List DiffEntry)) ∨
      ∀ d ∈ kd.2, ∃ k rest, DiffEntry.path d = PKey.str k :: rest ∧
        (["createdate"].contains k) = false) ∧
    (∀ idx, [Json.obj [("slug", Json.str "a"), ("createdate", Json.str "2020")]].findIdx?
        (fun item => strictEqOpt (getUniqueId item)
          (getUniqueId (Json.obj [("slug", Json.str "a"), ("createdate", Json.str "2021")])))
        = some idx →
      ∃ entity, (processItem true false ["createdate"]
        { titems := [Json.obj [("slug", Json.str "a"), ("createdate", Json.str "2020")]],
          nupdates := [], nnew := [], nupd := [], ndiffs := [] }
        (Json.obj [("slug", Json.str "a"), ("createdate", Json.str "2021")])).titems.get? idx
        = some entity ∧
        (entity.getField "createdate"
          = ([Json.obj [("slug", Json.str "a"),
              ("createdate", Json.str "2020")]].getD idx Json.null).getField "createdate" ∨
         entity.getField "createdate" = none))) :=
  ⟨rfl,
   C5_exclusion true false ["createdate"]
      { titems := [Json.obj [("slug", Json.str "a"), ("createdate", Json.str "2020")]],
        nupdates := [], nnew := [], nupd := [], ndiffs := [] }
      (Json.obj [("slug", Json.str "a"), ("createdate", Json.str "2021")])
      "createdate" rfl⟩

theorem foldl_mergeStep_spec (s : List Json) :
    ∀ (t0 a0 : List Json),
      ∃ add,
        s.foldl mergeArraysStep (t0, a0) = (t0 ++ add, a0 ++ add) ∧
        (∀ x ∈ add, x ∈ s) ∧
        (∀ x ∈ add, ∀ y ∈ t0, jsonStringify y ≠ jsonStringify x) ∧
        (∀ x ∈ s, ∃ y ∈ t0 ++ add, jsonStringify y = jsonStringify x) ∧
        add.Pairwise (fun x z => jsonStringify x ≠ jsonStringify z) := by
  induction s with
  | nil =>
      intro t0 a0
      exact ⟨[], by simp, by simp, by simp, by simp, by simp⟩
  | cons x rest ih =>
      intro t0 a0
      rw [List.foldl_cons]
      cases hc : t0.any (fun y => jsonStringify y == jsonStringify x) with
      | true =>
          have hstep : mergeArraysStep (t0, a0) x = (t0, a0) := by
            unfold mergeArraysStep
            rw [if_pos (by rw [hc])]
          rw [hstep]
          obtain ⟨add, heq, hin, hnot, hcov, hpw⟩ := ih t0 a0
          refine ⟨add, heq, fun z hz => List.mem_cons_of_mem _ (hin z hz), hnot, ?_, hpw⟩
          intro z hz
          rcases List.mem_cons.mp hz with h1 | h1
          · subst h1
            rcases List.any_eq_true.mp hc with ⟨y, hy, hbeq⟩
            exact ⟨y, List.mem_append.mpr (Or.inl hy), eq_of_beq hbeq⟩
          · exact hcov z h1
      | false =>
          have hstep : mergeArraysStep (t0, a0) x = (t0 ++ [x], a0 ++ [x]) := by
            unfold mergeArraysStep
            rw [if_neg (by rw [hc]; exact Bool.false_ne_true)]
          rw [hstep]
          have hnone : ∀ y ∈ t0, jsonStringify y ≠ jsonStringify x := by
            intro y hy
            have h2 := List.any_eq_false.mp hc y hy
            exact ne_of_beq_false (Bool.not_eq_true _ ▸ Bool.eq_false_iff.mpr h2)
          obtain ⟨add, heq, hin, hnot, hcov, hpw⟩ := ih (t0 ++ [x]) (a0 ++ [x])
          refine ⟨x :: add, ?_, ?_, ?_, ?_, ?_⟩
          · rw [heq]
            simp
          · intro z hz
            rcases List.mem_cons.mp hz with h1 | h1
            · subst h1; simp
            · exact List.mem_cons_of_mem _ (hin z h1)
          · intro z hz y hy
            rcases List.mem_cons.mp hz with h1 | h1
            · subst h1
              exact hnone y hy
            · exact hnot z h1 y (List.mem_append.mpr (Or.inl hy))
          · intro z hz
            rcases List.mem_cons.mp hz with h1 | h1
            · subst h1
              exact ⟨z, by simp, rfl⟩
            · obtain ⟨y, hy, he⟩ := hcov z h1
              refine ⟨y, ?_, he⟩
              rcases List.mem_append.mp hy with h2 | h2
              · rcases List.mem_append.mp h2 with h3 | h3
                · exact List.mem_append.mpr (Or.inl h3)
                · rw [List.mem_singleton.mp h3]
                  exact List.mem_append.mpr (Or.inr (by simp))
              · exact List.mem_append.mpr (Or.inr (List.mem_cons_of_mem _ h2))
          · refine List.Pairwise.cons ?_ hpw
            intro z hz
            exact hnot z hz x (List.mem_append.mpr (Or.inr (by simp)))

theorem appendStep_lookup_ne (acc : List (String × Json) × List DiffEntry)
    (kv : String × Json) (k : String) (hne : kv.1 ≠ k) :
    (appendStep acc kv).1.lookup k = acc.1.lookup k := by
  unfold appendStep
  cases hl : acc.1.lookup kv.1 with
  | none => cases kv.2 <;> rfl
  | some v =>
      cases v with
      | arr targetArr =>
          cases kv.2 with
          | arr sourceArr => exact lookup_setAssoc_ne _ _ _ _ (Ne.symm hne)
          | null => rfl
          | bool b => rfl
          | num n => rfl
          | str s => rfl
          | obj fs => rfl
      | null => cases kv.2 <;> rfl
      | bool b => cases kv.2 <;> rfl
      | num n => cases kv.2 <;> rfl
      | str s => cases kv.2 <;> rfl
      | obj fs => cases kv.2 <;> rfl

theorem foldl_appendStep_lookup_notin (k : String) :
    ∀ (sf : List (String × Json)) (acc : List (String × Json) × List DiffEntry),
      (∀ kv ∈ sf, kv.1 ≠ k) →
      ((sf.foldl appendStep acc).1.lookup k) = acc.1.lookup k := by
  intro sf
  induction sf with
  | nil => exact fun acc _ => rfl
  | cons kv0 rest ih =>
      intro acc hnot
      rw [List.foldl_cons, ih _ (fun kv hkv => hnot kv (List.mem_cons_of_mem _ hkv)),
        appendStep_lookup_ne acc kv0 k (hnot kv0 (by simp))]

theorem foldl_appendStep_lookup_mem (k : String) (sa : List Json) :
    ∀ (sf : List (String × Json)) (acc : List (String × Json) × List DiffEntry)
      (ta : List Json),
      (k, Json.arr sa) ∈ sf → (sf.map Prod.fst).Nodup →
      acc.1.lookup k = some (Json.arr ta) →
      ((sf.foldl appendStep acc).1.lookup k) = some (Json.arr (mergeArrays ta sa).1) := by
  intro sf
  induction sf with
  | nil => intro acc ta h; simp at h
  | cons kv0 rest ih =>
      intro acc ta hmem hnd hacc
      rw [List.foldl_cons]
      rw [List.map_cons, List.nodup_cons] at hnd
      rcases List.mem_cons.mp hmem with h1 | h1
      · subst h1
        have hrest : ∀ kv ∈ rest, kv.1 ≠ k := by
          intro kv hkv hcon
          have hmm : kv.1 ∈ rest.map Prod.fst := List.mem_map_of_mem Prod.fst hkv
          rw [hcon] at hmm
          exact hnd.1 hmm
        rw [foldl_appendStep_lookup_notin k rest _ hrest]
        have hstep : (appendStep acc (k, Json.arr sa)).1
            = setAssoc acc.1 k (Json.arr (mergeArrays ta sa).1) := by
          unfold appendStep
          rw [hacc]
        rw [hstep, lookup_setAssoc_self]
      · have hne : kv0.1 ≠ k := by
          intro hcon
          have hmm : k ∈ rest.map Prod.fst := List.mem_map_of_mem Prod.fst h1
          rw [← hcon] at hmm
          exact hnd.1 hmm
        exact ih _ ta h1 hnd.2
          ((appendStep_lookup_ne acc kv0 k hne) ▸ hacc)

/-- C6: mergeArrays appends to the target array exactly those source elements
whose JSON.stringify form (key order sensitive) matches no element present at
the time of the test: the merged array is the original target array with the
added list appended at the end (every original element retained, order
preserved), every added element comes from the source array and matches no
original target element, every source element has a serialised match in the
merged array, and the added elements are pairwise serial-distinct; and under
appendArrayValues=true a matched entity's field holding the target array in
both filtered entities becomes exactly this merged array, so every element
originally in the target array field is retained. -/
theorem C6_mergeArrays (targetArray sourceArray : List Json) :
    ((mergeArrays targetArray sourceArray).1
      = targetArray ++ (mergeArrays targetArray sourceArray).2) ∧
    (∀ x ∈ (mergeArrays targetArray sourceArray).2, x ∈ sourceArray) ∧
    (∀ x ∈ (mergeArrays targetArray sourceArray).2,
      ∀ y ∈ targetArray, jsonStringify y ≠ jsonStringify x) ∧
    (∀ x ∈ sourceArray, ∃ y ∈ (mergeArrays targetArray sourceArray).1,
      jsonStringify y = jsonStringify x) ∧
    ((mergeArrays targetArray sourceArray).2).Pairwise
      (fun x z => jsonStringify x ≠ jsonStringify z) ∧
    (∀ y ∈ targetArray, y ∈ (mergeArrays targetArray sourceArray).1) ∧
    (∀ (o : Bool) (excl : List String) (tgt src entity : Json) (ds : List DiffEntry)
      (f : String),
      mergeEntity o true excl tgt src = some (entity, ds) →
      ((filterObject src.fieldsOf excl).map Prod.fst).Nodup →
      (filterObject tgt.fieldsOf excl).lookup f = some (Json.arr targetArray) →
      (filterObject src.fieldsOf excl).lookup f = some (Json.arr sourceArray) →
      entity.getField f = some (Json.arr (mergeArrays targetArray sourceArray).1)) := by
  obtain ⟨add, heq, hin, hnot, hcov, hpw⟩ := foldl_mergeStep_spec sourceArray targetArray []
  have h1 : (mergeArrays targetArray sourceArray).1 = targetArray ++ add := by
    unfold mergeArrays
    rw [heq]
  have h2 : (mergeArrays targetArray sourceArray).2 = add := by
    unfold mergeArrays
    rw [heq]
    simp
  refine ⟨by rw [h1, h2], ?_, ?_, ?_, ?_, ?_, ?_⟩
  · rw [h2]; exact hin
  · rw [h2]; exact hnot
  · rw [h1]; exact hcov
  · rw [h2]; exact hpw
  · intro y hy
    rw [h1]
    exact List.mem_append.mpr (Or.inl hy)
  · intro o excl tgt src entity ds f hm hnd htf hsf
    rw [mergeEntity_append] at hm
    injection hm with hm2
    injection hm2 with hent hds
    rw [← hent]
    show ((appendArrays (filterObject tgt.fieldsOf excl)
        (filterObject src.fieldsOf excl)
        (mergeBase o excl tgt src)).1.lookup f) = _
    exact foldl_appendStep_lookup_mem f sourceArray
      (filterObject src.fieldsOf excl)
      (filterObject tgt.fieldsOf excl, mergeBase o excl tgt src)
      targetArray (lookup_mem hsf) hnd htf

/-- Witness for C6 at concrete arrays and a concrete matched entity pair with
a shared array field tags, under overwrite=false and appendArrayValues=true. -/
theorem C6_mergeArrays_witness :
    (mergeEntity false true []
        (Json.obj [("slug", Json.str "a"), ("tags", Json.arr [Json.num 1])])
        (Json.obj [("slug", Json.str "a"), ("tags", Json.arr [Json.num 2])])
      = some (Json.obj [("slug", Json.str "a"), ("tags", Json.arr [Json.num 1, Json.num 2])],
          [DiffEntry.A [PKey.str "tags"] 1 (DiffItem.N (Json.num 2))])) ∧
    ((Json.obj [("slug", Json.str "a"),
        ("tags", Json.arr [Json.num 1, Json.num 2])]).getField "tags"
      = some (Json.arr (mergeArrays [Json.num 1] [Json.num 2]).1)) :=
  ⟨rfl,
    (C6_mergeArrays [Json.num 1] [Json.num 2]).2.2.2.2.2.2 false []
      (Json.obj [("slug", Json.str "a"), ("tags", Json.arr [Json.num 1])])
      (Json.obj [("slug", Json.str "a"), ("tags", Json.arr [Json.num 2])])
      (Json.obj [("slug", Json.str "a"), ("tags", Json.arr [Json.num 1, Json.num 2])])
      [DiffEntry.A [PKey.str "tags"] 1 (DiffItem.N (Json.num 2))]
      "tags" rfl (by decide) rfl rfl⟩

theorem beforeColon_eq {s : String}
    (h : s.toList.all (fun c => c != ':') = true) : beforeColon s = s := by
  unfold beforeColon
  have h2 : s.toList.takeWhile (fun c => c != ':') = s.toList := by
    rw [List.takeWhile_eq_self_iff]
    exact List.all_eq_true.mp h
  rw [h2]
  obtain ⟨d⟩ := s
  rfl

theorem renderItems_spec_new (dd : List (String × List (String × List DiffEntry)))
    (node : String) (items : List (Option Json))
    (h : ∀ idv ∈ items, ∃ s, idv = some (Json.str s) ∧
      s.toList.all (fun c => c != ':') = true ∧ ddLookup dd node s = none) :
    renderItems dd node items = specItems dd node false items := by
  induction items with
  | nil => rfl
  | cons idv rest ih =>
      obtain ⟨s, hsv, hcol, hdd⟩ := h idv (by simp)
      subst hsv
      have ihr := ih (fun x hx => h x (List.mem_cons_of_mem _ hx))
      rw [renderItems, renderItem_str, beforeColon_eq hcol, hdd, specItems, ihr]
      cases hrest : specItems dd node false rest with
      | none => rfl
      | some t => rfl


theorem diffLine_eq_spec (d : DiffEntry) (h : addedTruthy d = true) :
    diffLine d = specDiffLine d := by
  cases d with
  | E p lhs rhs => rfl
  | N p rhs => rfl
  | D p lhs => rfl
  | A p i item =>
      cases item with
      | N rhs =>
          show "      * Array " ++ joinPath p ++ " modified at index " ++ toString i ++
              ": " ++ "Added" ++ " value " ++
              (if truthy rhs then jsonStringify rhs else "undefined") ++ "\n"
            = "      * Array " ++ joinPath p ++ " modified at index " ++ toString i ++
              ": " ++ "Added" ++ " value " ++ jsonStringify rhs ++ "\n"
          rw [if_pos (show truthy rhs = true from h)]
      | D lhs => rfl

theorem renderItems_spec_upd (dd : List (String × List (String × List DiffEntry)))
    (node : String) (items : List (Option Json))
    (h : ∀ idv ∈ items, ∃ s, idv = some (Json.str s) ∧
      s.toList.all (fun c => c != ':') = true ∧
      ∀ d ∈ (ddLookup dd node s).getD [], addedTruthy d = true) :
    renderItems dd node items = specItems dd node true items := by
  induction items with
  | nil => rfl
  | cons idv rest ih =>
      obtain ⟨s, hsv, hcol, htru⟩ := h idv (by simp)
      subst hsv
      have ihr := ih (fun x hx => h x (List.mem_cons_of_mem _ hx))
      rw [renderItems, renderItem_str, beforeColon_eq hcol, specItems, ihr]
      cases hdd : ddLookup dd node s with
      | none =>
          cases hrest : specItems dd node true rest with
          | none => rfl
          | some t =>
              show some ("    - " ++ s ++ "\n" ++ t) =
                some (("    - " ++ s ++ "\n" ++ "") ++ t)
              rw [String.append_empty]
      | some ds =>
          have hmap : ds.map diffLine = ds.map specDiffLine := by
            apply List.map_congr_left
            intro d hd
            exact diffLine_eq_spec d (htru d (by rw [hdd]; exact hd))
          cases hrest : specItems dd node true rest with
          | none => rfl
          | some t =>
              show some (("    - " ++ s ++ "\n" ++ String.join (ds.map diffLine)) ++ t) =
                some (("    - " ++ s ++ "\n" ++ String.join (ds.map specDiffLine)) ++ t)
              rw [hmap]

theorem renderNodes_spec (dd : List (String × List (String × List DiffEntry)))
    (isUpdated : Bool) (entries : List (String × List (Option Json)))
    (h : ∀ kv ∈ entries, ∀ idv ∈ kv.2, ∃ s, idv = some (Json.str s) ∧
      s.toList.all (fun c => c != ':') = true ∧
      (isUpdated = false → ddLookup dd kv.1 s = none) ∧
      (isUpdated = true → ∀ d ∈ (ddLookup dd kv.1 s).getD [], addedTruthy d = true)) :
    renderNodes dd entries = specNodes dd isUpdated entries := by
  induction entries with
  | nil => rfl
  | cons kv rest ih =>
      obtain ⟨node, items⟩ := kv
      have hitems : renderItems dd node items = specItems dd node isUpdated items := by
        cases isUpdated with
        | false =>
            apply renderItems_spec_new
            intro idv hidv
            obtain ⟨s, h1, h2, h3, _⟩ := h (node, items) (by simp) idv hidv
            exact ⟨s, h1, h2, h3 rfl⟩
        | true =>
            apply renderItems_spec_upd
            intro idv hidv
            obtain ⟨s, h1, h2, _, h4⟩ := h (node, items) (by simp) idv hidv
            exact ⟨s, h1, h2, h4 rfl⟩
      rw [renderNodes, specNodes, hitems, ih (fun x hx => h x (List.mem_cons_of_mem _ hx))]

theorem renderSection_spec (label : String) (isUpdated : Bool)
    (entries : List (String × List (Option Json)))
    (dd : List (String × List (String × List DiffEntry)))
    (h : ∀ kv ∈ entries, ∀ idv ∈ kv.2, ∃ s, idv = some (Json.str s) ∧
      s.toList.all (fun c => c != ':') = true ∧
      (isUpdated = false → ddLookup dd kv.1 s = none) ∧
      (isUpdated = true → ∀ d ∈ (ddLookup dd kv.1 s).getD [], addedTruthy d = true)) :
    renderSection label entries dd = specSection label entries dd isUpdated := by
  unfold renderSection specSection
  rw [renderNodes_spec dd isUpdated entries h]

/-- C9, counterexamples, one per amendment proviso.  First (colon id): for
the Updated id "a:b" whose diff list is recorded under the full key "a:b",
the code's split-at-colon lookup misses and no diff line is emitted, against
the claimed one line per recorded entry.  Second (New id colliding with a
recorded diff key): a New id whose truncated form is a recorded diff key
gets the diff lines printed under New, against the claimed bare id line.
Third (falsy added array value): the code serialises diff.item.rhs with a
truthiness fallback to diff.item.lhs, printing "Added value undefined" for
an appended 0 where the claimed phrasing prints the element, "Added value
0". -/
theorem C9_cex :
    (generateTextualReport [] [("form", [some (Json.str "a:b")])]
        [("form", [("a:b", [DiffEntry.E [PKey.str "x"] (Json.num 1) (Json.num 2)])])]
      = some "Updated:\n  form:\n    - a:b" ∧
     specTextualReport [] [("form", [some (Json.str "a:b")])]
        [("form", [("a:b", [DiffEntry.E [PKey.str "x"] (Json.num 1) (Json.num 2)])])]
      = some "Updated:\n  form:\n    - a:b\n      * Changed x from 1 to 2" ∧
     ("Updated:\n  form:\n    - a:b" : String)
       ≠ "Updated:\n  form:\n    - a:b\n      * Changed x from 1 to 2") ∧
    (generateTextualReport [("form", [some (Json.str "ab")])] []
        [("form", [("ab", [DiffEntry.E [PKey.str "x"] (Json.num 1) (Json.num 2)])])]
      = some "New:\n  form:\n    - ab\n      * Changed x from 1 to 2" ∧
     specTextualReport [("form", [some (Json.str "ab")])] []
        [("form", [("ab", [DiffEntry.E [PKey.str "x"] (Json.num 1) (Json.num 2)])])]
      = some "New:\n  form:\n    - ab" ∧
     ("New:\n  form:\n    - ab\n      * Changed x from 1 to 2" : String)
       ≠ "New:\n  form:\n    - ab") ∧
    (generateTextualReport [] [("form", [some (Json.str "ab")])]
        [("form", [("ab", [DiffEntry.A [PKey.str "tags"] 1 (DiffItem.N (Json.num 0))])])]
      = some "Updated:\n  form:\n    - ab\n      * Array tags modified at index 1: Added value undefined" ∧
     specTextualReport [] [("form", [some (Json.str "ab")])]
        [("form", [("ab", [DiffEntry.A [PKey.str "tags"] 1 (DiffItem.N (Json.num 0))])])]
      = some "Updated:\n  form:\n    - ab\n      * Array tags modified at index 1: Added value 0" ∧
     ("Updated:\n  form:\n    - ab\n      * Array tags modified at index 1: Added value undefined" : String)
       ≠ "Updated:\n  form:\n    - ab\n      * Array tags modified at index 1: Added value 0") :=
  ⟨⟨by decide, by decide, by decide⟩,
   ⟨by decide, by decide, by decide⟩,
   ⟨by decide, by decide, by decide⟩⟩

/-- C9 (amended): the claimed rendering holds whenever the report ids are
strings containing no colon (so the code's split-at-colon lookup key is the
id itself), ids in the New section have no recorded diff list, and every
kind-A element addition recorded for an Updated id carries a truthy value
(so the code's rhs-or-lhs serialisation prints the element itself): then the
code's textual report coincides with the spec-modelled report — one
kind-phrased line per recorded diff entry for every Updated id, and only the
bare id line for every New id. -/
theorem C9_amended (rNew rUpd : List (String × List (Option Json)))
    (dd : List (String × List (String × List DiffEntry)))
    (hNew : ∀ kv ∈ rNew, ∀ idv ∈ kv.2, ∃ s, idv = some (Json.str s) ∧
      s.toList.all (fun c => c != ':') = true ∧ ddLookup dd kv.1 s = none)
    (hUpd : ∀ kv ∈ rUpd, ∀ idv ∈ kv.2, ∃ s, idv = some (Json.str s) ∧
      s.toList.all (fun c => c != ':') = true ∧
      ∀ d ∈ (ddLookup dd kv.1 s).getD [], addedTruthy d = true) :
    generateTextualReport rNew rUpd dd = specTextualReport rNew rUpd dd := by
  have hn : ∀ kv ∈ rNew, ∀ idv ∈ kv.2, ∃ s, idv = some (Json.str s) ∧
      s.toList.all (fun c => c != ':') = true ∧
      (false = false → ddLookup dd kv.1 s = none) ∧
      (false = true → ∀ d ∈ (ddLookup dd kv.1 s).getD [], addedTruthy d = true) := by
    intro kv hkv idv hidv
    obtain ⟨s, h1, h2, h3⟩ := hNew kv hkv idv hidv
    exact ⟨s, h1, h2, fun _ => h3, fun hff => Bool.noConfusion hff⟩
  have hu : ∀ kv ∈ rUpd, ∀ idv ∈ kv.2, ∃ s, idv = some (Json.str s) ∧
      s.toList.all (fun c => c != ':') = true ∧
      (true = false → ddLookup dd kv.1 s = none) ∧
      (true = true → ∀ d ∈ (ddLookup dd kv.1 s).getD [], addedTruthy d = true) := by
    intro kv hkv idv hidv
    obtain ⟨s, h1, h2, h3⟩ := hUpd kv hkv idv hidv
    exact ⟨s, h1, h2, fun hff => Bool.noConfusion hff, fun _ => h3⟩
  unfold generateTextualReport specTextualReport
  rw [renderSection_spec "New" false rNew dd hn,
      renderSection_spec "Updated" true rUpd dd hu]

/-- C9 witness: on a New id "new1" (no recorded diffs) and an Updated id "ab"
with one recorded Edited entry, both ids colon-free, the code's report equals
the spec-modelled report. -/
theorem C9_amended_witness :
    generateTextualReport [("form", [some (Json.str "new1")])]
        [("form", [some (Json.str "ab")])]
        [("form", [("ab", [DiffEntry.E [PKey.str "x"] (Json.num 1) (Json.num 2)])])]
      = specTextualReport [("form", [some (Json.str "new1")])]
        [("form", [some (Json.str "ab")])]
        [("form", [("ab", [DiffEntry.E [PKey.str "x"] (Json.num 1) (Json.num 2)])])] := by
  apply C9_amended
  · intro kv hkv idv hidv
    simp only [List.mem_singleton] at hkv
    subst hkv
    simp only [List.mem_singleton] at hidv
    subst hidv
    exact ⟨"new1", rfl, by decide, rfl⟩
  · intro kv hkv idv hidv
    simp only [List.mem_singleton] at hkv
    subst hkv
    simp only [List.mem_singleton] at hidv
    subst hidv
    refine ⟨"ab", rfl, by decide, ?_⟩
    intro d hd
    have he : (ddLookup
        [("form", [("ab", [DiffEntry.E [PKey.str "x"] (Json.num 1) (Json.num 2)])])]
        "form" "ab").getD []
      = [DiffEntry.E [PKey.str "x"] (Json.num 1) (Json.num 2)] := rfl
    rw [he] at hd
    simp only [List.mem_singleton] at hd
    subst hd
    rfl

end MergeSpec
